import Mathlib

/-!
Verification of the graph-construction / layout / view-derivation core of the
`nextjs-pj-map` dependency-graph viewer (`src/app/page.tsx`).

The TypeScript source is shallowly embedded: JavaScript strings become Lean
`String` (operating on the underlying `List Char` where we need executable
primitives), `Map` with insertion-order semantics becomes an association list
with an overwriting `mapSet`, arrays become `List`, and the `loadData` graph
construction, `getNodeType`, `getNodeStyle`, the dagre layout wrapper, the
search handler and the display-node derivations are translated function by
function.
-/

namespace DepGraph

/-! ## String primitives (models of the JavaScript string methods used) -/

/-- Model of list-prefix testing, used for `String.startsWith`. -/
def isPfxOf : List Char → List Char → Bool
  | [], _ => true
  | _ :: _, [] => false
  | a :: as, b :: bs => a = b && isPfxOf as bs

/-- Model of substring testing on character lists. -/
def inclCL (sub : List Char) : List Char → Bool
  | [] => isPfxOf sub []
  | c :: rest => isPfxOf sub (c :: rest) || inclCL sub rest

/-- Model of JavaScript `s.includes(sub)`. -/
def strIncl (s sub : String) : Bool := inclCL sub.data s.data

/-- Model of JavaScript `s.startsWith(sub)`. -/
def strStarts (s sub : String) : Bool := isPfxOf sub.data s.data

/-- Characters treated as whitespace by the model of `String.trim`. -/
def isWsChar (c : Char) : Bool := c = ' ' || c = '\t' || c = '\n' || c = '\r'

/-- Model of JavaScript `s.trim()`. -/
def strTrim (s : String) : String :=
  String.mk (((s.data.dropWhile isWsChar).reverse.dropWhile isWsChar).reverse)

/-- Replace the first occurrence of `pat` in a character list by nothing
(the replacement string in the source is empty). -/
def dropFirstOcc (pat : List Char) : List Char → List Char
  | [] => []
  | c :: rest =>
    if isPfxOf pat (c :: rest) then (c :: rest).drop pat.length
    else c :: dropFirstOcc pat rest

/-- Model of `fileKey.replace('github:', '')` in `loadData`: JavaScript
`replace` with a string pattern removes only the first occurrence. -/
def stripGithub (s : String) : String :=
  String.mk (dropFirstOcc ("github:".data) s.data)

/-- Split a character list at `'/'`, used for `id.split('/')`. -/
def splitSlash : List Char → List Char → List (List Char)
  | [], acc => [acc.reverse]
  | c :: rest, acc =>
    if c = '/' then acc.reverse :: splitSlash rest [] else splitSlash rest (c :: acc)

/-- Model of `id.split('/').pop() || id` (the `||` falls back to `id` when the
last segment is the empty string, which is falsy). -/
def lastSegOr (id : String) : String :=
  let segs := splitSlash id.data []
  let last := segs.getLastD []
  if last.isEmpty then id else String.mk last

/-! ## Data model (translated from the TypeScript interfaces) -/

/-- `interface DockerAPI` from the source; optional fields become `Option`. -/
structure DockerAPI where
  name : Option String
  apiType : Option String
  description : String
  line : Option Int
  codeSnippet : Option String
deriving DecidableEq

/-- `interface DockerAnalysisResult` from the source. -/
structure DockerAnalysisResult where
  hasDockerIntegration : Bool
  dockerTools : List String
  dockerApis : List DockerAPI
  summary : String
deriving DecidableEq

/-- The `dockerInfo` payload attached to synthesized Docker nodes (union of
the api-node and tool-node variants; absent fields are `none`). -/
structure DockerInfo where
  apiName : Option String
  friendlyName : String
  description : Option String
  sourceFile : String
  tool : Option String
  originalApi : Option DockerAPI
deriving DecidableEq

/-- The `data` payload stored on every ReactFlow node by `loadData`. -/
structure NodeData where
  label : String
  fullPath : String
  fileType : String
  nodeType : Option String
  sourceFile : Option String
  dockerInfo : Option DockerInfo
deriving DecidableEq

/-- The style record produced by `getNodeStyle` (plus the `width`/`height`
fields that `getLayoutedElements` adds). -/
structure NodeStyle where
  background : String
  color : String
  fontSize : Nat
  fontWeight : Nat
  padding : Nat
  borderRadius : Nat
  border : String
  opacity : Rat
  boxShadow : String
  transition : String
  backdropFilter : String
  width : Option Int
  height : Option Int
deriving DecidableEq

/-- A ReactFlow node as built by `loadData`. -/
structure Node where
  id : String
  data : NodeData
  position : Int × Int
  style : NodeStyle
deriving DecidableEq

/-- The style record placed on edges by `loadData`. -/
structure EdgeStyle where
  stroke : String
  strokeWidth : Nat
  strokeDasharray : Option String
deriving DecidableEq

/-- A ReactFlow edge as built by `loadData`; `dataType` is the `data.type`
field. -/
structure Edge where
  id : String
  source : String
  target : String
  animated : Bool
  style : EdgeStyle
  dataType : Option String
deriving DecidableEq

/-- `type CytoscapeElement`: a raw element is a node descriptor or an edge
descriptor. -/
inductive CytoscapeElement where
  | node (id : String) (type? : Option String) (label? : Option String)
      (sourceFile? : Option String)
  | edge (source target : String) (type? : Option String)
deriving DecidableEq

/-! ## Static tables -/

/-- Per-type display configuration, one entry of `FILE_TYPES`. -/
structure FileTypeConfig where
  color : String
  icon : String
  label : String
  textColor : String
deriving DecidableEq

/-- The `FILE_TYPES` table, in source order. -/
def FILE_TYPES : List (String × FileTypeConfig) :=
  [ ("pages", ⟨"#16a34a", "📄", "Pages", "#ffffff"⟩),
    ("components", ⟨"#2563eb", "🧩", "Components", "#ffffff"⟩),
    ("utils", ⟨"#64748b", "🔧", "Utils", "#ffffff"⟩),
    ("lib", ⟨"#7c3aed", "📚", "Libraries", "#ffffff"⟩),
    ("hooks", ⟨"#dc2626", "🪝", "Hooks", "#ffffff"⟩),
    ("types", ⟨"#ea580c", "📝", "Types", "#ffffff"⟩),
    ("api", ⟨"#059669", "🌐", "API", "#ffffff"⟩),
    ("default", ⟨"#1f2937", "📁", "Other", "#ffffff"⟩),
    ("docker_api", ⟨"#1e40af", "🔌", "Docker API", "#ffffff"⟩),
    ("docker_tool", ⟨"#059669", "🛠️", "Docker Tool", "#ffffff"⟩),
    ("docker_config", ⟨"#d97706", "⚙️", "Docker Config", "#ffffff"⟩),
    ("docker_service", ⟨"#7c3aed", "🚀", "Docker Service", "#ffffff"⟩) ]

/-- Association-list lookup with propositional string equality. -/
def alookup {β : Type} : List (String × β) → String → Option β
  | [], _ => none
  | p :: rest, k => if p.1 = k then some p.2 else alookup rest k

/-- The keys of `FILE_TYPES`, for the `nodeType in FILE_TYPES` test. -/
def fileTypeKeys : List String := FILE_TYPES.map (·.1)

/-- `FILE_TYPES[type]`; every access in the source uses a valid key, so the
fallback is never hit but keeps the function total. -/
def getConfig (k : String) : FileTypeConfig :=
  (alookup FILE_TYPES k).getD ⟨"#1f2937", "📁", "Other", "#ffffff"⟩

/-- The static `nameMap` of `getFriendlyDockerName`. -/
def dockerNameMap : List (String × String) :=
  [ ("DockerAIEditorManager", "Docker AI 編輯器管理器"),
    ("createDockerToolkit", "建立 Docker 工具包"),
    ("dockerConfigManager.autoDetectDockerContext", "Docker 配置自動檢測"),
    ("DockerToolkit", "Docker 工具包"),
    ("DockerContext", "Docker 上下文"),
    ("dockerReadFile", "Docker 讀取檔案"),
    ("dockerWriteFile", "Docker 寫入檔案"),
    ("dockerListDirectory", "Docker 列出目錄"),
    ("dockerFindFiles", "Docker 搜尋檔案"),
    ("dockerCheckPathExists", "Docker 檢查路徑"),
    ("dockerGetProjectInfo", "Docker 取得專案資訊"),
    ("securityValidator", "安全性驗證器"),
    ("docker_start_dev_server", "Docker 啟動開發伺服器"),
    ("docker_restart_dev_server", "Docker 重啟開發伺服器"),
    ("docker_read_log_tail", "Docker 讀取日誌"),
    ("docker_check_health", "Docker 健康檢查") ]

/-- `getFriendlyDockerName`: `nameMap[name] || name`. -/
def getFriendlyDockerName (name : String) : String :=
  (alookup dockerNameMap name).getD name

/-! ## Category resolution and node styling -/

/-- `getNodeType`: explicit node type wins when it is a `FILE_TYPES` key,
otherwise the category is inferred from substrings of the identifier, in
source order. -/
def getNodeType (id : String) (nodeType : Option String) : String :=
  let explicit : Option String :=
    match nodeType with
    | some s => if s ≠ "" ∧ s ∈ fileTypeKeys then some s else none
    | none => none
  match explicit with
  | some s => s
  | none =>
    if strIncl id "pages/" || strIncl id "app/" then "pages"
    else if strIncl id "components/" then "components"
    else if strIncl id "utils/" then "utils"
    else if strIncl id "lib/" then "lib"
    else if strIncl id "hooks/" || strIncl id "use" then "hooks"
    else if strIncl id "types/" || strIncl id ".d.ts" then "types"
    else if strIncl id "api/" then "api"
    else "default"

/-- `getNodeStyle`. -/
def getNodeStyle (id : String) (nodeType : Option String)
    (isHighlighted : Bool) (isFiltered : Bool) : NodeStyle :=
  let t := getNodeType id nodeType
  let config := getConfig t
  { background := if isHighlighted then "#fbbf24" else config.color
    color := if isHighlighted then "#000000" else config.textColor
    fontSize := 12
    fontWeight := 600
    padding := 10
    borderRadius := 8
    border := if isHighlighted then "3px solid #f59e0b" else "2px solid rgba(255,255,255,0.3)"
    opacity := if isFiltered then (0.3 : Rat) else 1
    boxShadow := if isHighlighted
      then "0 0 20px rgba(245, 158, 11, 0.6)"
      else "0 4px 8px rgba(0,0,0,0.15)"
    transition := "all 0.3s ease"
    backdropFilter := "blur(1px)"
    width := none
    height := none }

/-! ## Graph construction (`loadData` in `src/app/page.tsx`) -/

/-- The `nodeMap` of `loadData`: a JavaScript `Map` keeps insertion order and
`set` overwrites an existing key in place. -/
abbrev NodeMap := List (String × Node)

/-- `nodeMap.set(id, node)`. -/
def mapSet (m : NodeMap) (k : String) (v : Node) : NodeMap :=
  if (alookup m k).isSome then
    m.map (fun p => if p.1 = k then (k, v) else p)
  else m ++ [(k, v)]

/-- Push an edge unless one with the same id is already present
(`if (!edgeList.find(edge => edge.id === edgeId)) edgeList.push(...)`). -/
def pushEdge (l : List Edge) (e : Edge) : List Edge :=
  if l.any (fun x => x.id = e.id) then l else l ++ [e]

/-- The node built for a raw node descriptor (first branch of the
`data.forEach` in `loadData`). -/
def mkFileNode (id : String) (type? : Option String) (label? : Option String)
    (sourceFile? : Option String) : Node :=
  let t := getNodeType id type?
  let config := getConfig t
  let genLabel := config.icon ++ " " ++ lastSegOr id
  let label :=
    match label? with
    | some l => if l = "" then genLabel else l
    | none => genLabel
  { id := id
    data :=
      { label := label, fullPath := id, fileType := t, nodeType := type?,
        sourceFile := sourceFile?, dockerInfo := none }
    position := (0, 0)
    style := getNodeStyle id type? false false }

/-- The edge built for a raw edge descriptor (second branch of the
`data.forEach`). -/
def mkDepEdge (source target : String) (type? : Option String) : Edge :=
  { id := source ++ "->" ++ target
    source := source
    target := target
    animated := type? = some "docker_integration"
    style :=
      if type? = some "docker_integration" then ⟨"#3b82f6", 3, some "5,5"⟩
      else ⟨"#94a3b8", 2, none⟩
    dataType := type? }

/-- One step of the `data.forEach` over raw elements. Note that the edge
branch performs no check that `source`/`target` are present in `nodeMap`. -/
def processElement (st : NodeMap × List Edge) (el : CytoscapeElement) :
    NodeMap × List Edge :=
  match el with
  | .node id type? label? sourceFile? =>
    (mapSet st.1 id (mkFileNode id type? label? sourceFile?), st.2)
  | .edge s t type? => (st.1, pushEdge st.2 (mkDepEdge s t type?))

/-- Phase 1 of `loadData`: fold the raw element list into the node map and
the edge list. -/
def buildBase (elements : List CytoscapeElement) : NodeMap × List Edge :=
  elements.foldl processElement ([], [])

/-- `api.name || api.apiType || ("api_" + index)` with JavaScript falsiness
(the empty string falls through). -/
def apiNameOf (api : DockerAPI) (index : Nat) : String :=
  match api.name with
  | some s =>
    if s = "" then
      match api.apiType with
      | some t => if t = "" then "api_" ++ Nat.repr index else t
      | none => "api_" ++ Nat.repr index
    else s
  | none =>
    match api.apiType with
    | some t => if t = "" then "api_" ++ Nat.repr index else t
    | none => "api_" ++ Nat.repr index

/-- The Docker API capability node synthesized for entry `index` of
`analysis.dockerApis`. -/
def capApiNode (fileName : String) (index : Nat) (api : DockerAPI) : Node :=
  let apiName := apiNameOf api index
  let friendlyName := getFriendlyDockerName apiName
  let dockerApiId :=
    "docker_api_" ++ fileName ++ "_" ++ apiName ++ "_" ++ Nat.repr index
  { id := dockerApiId
    data :=
      { label := "🔌 " ++ friendlyName
        fullPath := dockerApiId
        fileType := "docker_api"
        nodeType := some "docker_api"
        sourceFile := some fileName
        dockerInfo := some
          { apiName := some apiName, friendlyName := friendlyName,
            description := some api.description, sourceFile := fileName,
            tool := none, originalApi := some api } }
    position := (0, 0)
    style := getNodeStyle dockerApiId (some "docker_api") false false }

/-- The file → Docker-API capability edge. -/
def capApiEdge (fileName : String) (dockerApiId : String) : Edge :=
  { id := fileName ++ "->" ++ dockerApiId
    source := fileName
    target := dockerApiId
    animated := true
    style := ⟨"#1e40af", 2, some "3,3"⟩
    dataType := some "docker_api_usage" }

/-- The Docker tool capability node synthesized for entry `index` of
`analysis.dockerTools`. -/
def capToolNode (fileName : String) (index : Nat) (tool : String) : Node :=
  let friendlyName := getFriendlyDockerName tool
  let dockerToolId :=
    "docker_tool_" ++ fileName ++ "_" ++ tool ++ "_" ++ Nat.repr index
  { id := dockerToolId
    data :=
      { label := "🛠️ " ++ friendlyName
        fullPath := dockerToolId
        fileType := "docker_tool"
        nodeType := some "docker_tool"
        sourceFile := some fileName
        dockerInfo := some
          { apiName := none, friendlyName := friendlyName,
            description := none, sourceFile := fileName,
            tool := some tool, originalApi := none } }
    position := (0, 0)
    style := getNodeStyle dockerToolId (some "docker_tool") false false }

/-- The file → Docker-tool capability edge. -/
def capToolEdge (fileName : String) (dockerToolId : String) : Edge :=
  { id := fileName ++ "->" ++ dockerToolId
    source := fileName
    target := dockerToolId
    animated := true
    style := ⟨"#059669", 2, some "3,3"⟩
    dataType := some "docker_tool_usage" }

/-- One step of the `dockerApis.forEach((api, index) => ...)` loop: register
the capability node, then push the capability edge. -/
def stepApi (fileName : String) (st : NodeMap × List Edge)
    (p : Nat × DockerAPI) : NodeMap × List Edge :=
  (mapSet st.1 (capApiNode fileName p.1 p.2).id (capApiNode fileName p.1 p.2),
   pushEdge st.2 (capApiEdge fileName (capApiNode fileName p.1 p.2).id))

/-- One step of the `dockerTools.forEach((tool, index) => ...)` loop. -/
def stepTool (fileName : String) (st : NodeMap × List Edge)
    (p : Nat × String) : NodeMap × List Edge :=
  (mapSet st.1 (capToolNode fileName p.1 p.2).id (capToolNode fileName p.1 p.2),
   pushEdge st.2 (capToolEdge fileName (capToolNode fileName p.1 p.2).id))

/-- Indexed left fold, modelling `forEach((x, index) => ...)`. -/
def foldIdx {α β : Type} (f : α → Nat × β → α) : α → Nat → List β → α
  | a, _, [] => a
  | a, i, b :: bs => foldIdx f (f a (i, b)) (i + 1) bs

/-- Processing of one `(fileKey, analysis)` entry of the Docker analysis map
(body of the `Object.entries(dockerData).forEach`). Entries with
`hasDockerIntegration` false are skipped entirely. -/
def processDockerEntry (st : NodeMap × List Edge)
    (p : String × DockerAnalysisResult) : NodeMap × List Edge :=
  if p.2.hasDockerIntegration then
    let fileName := stripGithub p.1
    let st1 := foldIdx (stepApi fileName) st 0 p.2.dockerApis
    foldIdx (stepTool fileName) st1 0 p.2.dockerTools
  else st

/-- The full build of `loadData`: raw elements first, then Docker
augmentation over the annotation entries in order. -/
def buildGraph (elements : List CytoscapeElement)
    (dockerData : List (String × DockerAnalysisResult)) : NodeMap × List Edge :=
  dockerData.foldl processDockerEntry (buildBase elements)

/-! ## Layout engine (`dagreGraph` / `getLayoutedElements`)

The source creates a single module-level `dagre.graphlib.Graph()` and reuses
it for every `getLayoutedElements` call; `setNode`/`setEdge` registrations
accumulate in it across calls (spec §9 notes the "stateful layout library
object reused across calls (accumulating node/edge registrations)").  We make
that shared object an explicit state threaded through the wrapper. -/

/-- The registration state of the shared `dagre.graphlib.Graph()` instance:
node ids and edges in registration order.  Every `setNode` call in the source
passes the same `{ width: nodeWidth, height: nodeHeight }` label, so only the
id is recorded. -/
structure DagreState where
  nodes : List String
  edges : List (String × String)
deriving DecidableEq

/-- The fresh module-level graph at script load. -/
def dagreInit : DagreState := ⟨[], []⟩

/-- `dagreGraph.setNode(id, ...)`: re-registering an existing id overwrites
its (constant) label and leaves the node set unchanged. -/
def dagreSetNode (st : DagreState) (id : String) : DagreState :=
  if id ∈ st.nodes then st else { st with nodes := st.nodes ++ [id] }

/-- `dagreGraph.setEdge(source, target)` (not a multigraph: re-registering
the same pair overwrites its label). -/
def dagreSetEdge (st : DagreState) (s t : String) : DagreState :=
  if (s, t) ∈ st.edges then st else { st with edges := st.edges ++ [(s, t)] }

/-- `nodeWidth` from the source. -/
def nodeWidth : Int := 200

/-- `nodeHeight` from the source. -/
def nodeHeight : Int := 50

/-- Index of a string in a list (0 when absent, as only registered ids are
queried). -/
def idxOfStr : List String → String → Nat
  | [], _ => 0
  | a :: as, s => if a = s then 0 else idxOfStr as s + 1

/-- Modelled from the spec: the rank (layer) assignment of the layered
drawing algorithm run by `dagre.layout`, whose implementation is a
third-party library outside this repository.  Spec §4.2 describes it as
"rank assignment + crossing minimization + coordinate assignment" treating
the graph as directed; the rank of a node is the longest chain of
predecessors, computed with fuel bounded by the node count. -/
def rankOfAux (es : List (String × String)) : Nat → String → Nat
  | 0, _ => 0
  | fuel + 1, id =>
    let preds := (es.filter (fun e => e.2 = id)).map (·.1)
    match preds with
    | [] => 0
    | _ => 1 + (preds.map (rankOfAux es fuel)).foldl Nat.max 0

/-- Modelled from the spec: coordinate assignment of the deterministic
layered algorithm (`dagre.layout` is outside this repository).  A node's
center is placed at `x = ranksep * rank + width/2` and stacked within its
rank in registration order with the configured `nodesep` of 30, matching the
`{ rankdir: "LR", nodesep: 30, ranksep: 300 }` configuration the wrapper
passes.  What matters for the claims is that the result is a deterministic
function of the accumulated registration state. -/
def dagreLayoutPos (st : DagreState) (id : String) : Int × Int :=
  let fuel := st.nodes.length
  let r := rankOfAux st.edges fuel id
  let sameRank := st.nodes.filter (fun n => rankOfAux st.edges fuel n = r)
  let idx : Int := idxOfStr sameRank id
  (300 * Int.ofNat r + nodeWidth / 2,
   (nodeHeight + 30) * idx + nodeHeight / 2)

/-- The value produced by `getLayoutedElements`, together with the shared
graph state after the call. -/
structure LayoutResult where
  state : DagreState
  nodes : List Node
  edges : List Edge
deriving DecidableEq

/-- `getLayoutedElements(nodes, edges)`: register all nodes and edges into
the shared graph, run the layout, and read each node's position back
(shifted by half the fixed footprint). -/
def getLayoutedElements (g : DagreState) (nodes : List Node)
    (edges : List Edge) : LayoutResult :=
  let g1 := nodes.foldl (fun s n => dagreSetNode s n.id) g
  let g2 := edges.foldl (fun s e => dagreSetEdge s e.source e.target) g1
  let layoutedNodes := nodes.map (fun n =>
    let pos := dagreLayoutPos g2 n.id
    { n with
      position := (pos.1 - nodeWidth / 2, pos.2 - nodeHeight / 2)
      style := { n.style with width := some nodeWidth, height := some nodeHeight } })
  ⟨g2, layoutedNodes, edges⟩

/-! ## View-state derivations -/

/-- `toggleFilter`: copy the `Set`, then delete the type if present, else add
it (a JavaScript `Set` keeps insertion order; `add` appends). -/
def jsSetDelete : List String → String → List String
  | [], _ => []
  | a :: as, s => if a = s then as else a :: jsSetDelete as s

/-- The `toggleFilter` callback. -/
def toggleFilter (activeFilters : List String) (fileType : String) :
    List String :=
  if fileType ∈ activeFilters then jsSetDelete activeFilters fileType
  else activeFilters ++ [fileType]

/-- The restyling applied by both `displayNodes` derivations: highlight flag
from `highlightedNode`, filtered flag from the active category filters. -/
def restyleNode (highlightedNode : Option String)
    (activeFilters : List String) (node : Node) : Node :=
  { node with
    style := getNodeStyle node.id node.data.nodeType
      (some node.id = highlightedNode)
      (!activeFilters.isEmpty &&
        !(decide (getNodeType node.id node.data.nodeType ∈ activeFilters))) }

/-- The `displayNodes` memo of the first component (no Docker filtering):
restyling only, no node is removed. -/
def displayNodesA (nodes : List Node) (highlightedNode : Option String)
    (activeFilters : List String) : List Node :=
  nodes.map (restyleNode highlightedNode activeFilters)

/-- `node.data.nodeType?.startsWith('docker_')` (optional chaining yields a
falsy value when `nodeType` is absent). -/
def isDockerNode (n : Node) : Bool :=
  match n.data.nodeType with
  | some s => strStarts s "docker_"
  | none => false

/-- The annotation lookup in the second component's `displayNodes`:
`dockerAnalysis[`github:${nodeId}`] || dockerAnalysis[nodeId]`. -/
def dockerLookup (dockerAnalysis : List (String × DockerAnalysisResult))
    (nodeId : String) : Option DockerAnalysisResult :=
  match alookup dockerAnalysis ("github:" ++ nodeId) with
  | some r => some r
  | none => alookup dockerAnalysis nodeId

/-- `dockerData?.hasDockerIntegration` coerced to a boolean. -/
def hasDockerIntegrationOf (dockerAnalysis : List (String × DockerAnalysisResult))
    (nodeId : String) : Bool :=
  match dockerLookup dockerAnalysis nodeId with
  | some r => r.hasDockerIntegration
  | none => false

/-- The filter predicate of the second component's `displayNodes`: drop a
node when the Docker-only filter is on and it is neither a Docker node nor a
file with Docker integration; drop Docker nodes when Docker-node visibility
is off. -/
def displayKeep (dockerAnalysis : List (String × DockerAnalysisResult))
    (showDockerOnly showDockerNodes : Bool) (node : Node) : Bool :=
  let isDocker := isDockerNode node
  let hasDI := hasDockerIntegrationOf dockerAnalysis node.id
  if showDockerOnly && !isDocker && !hasDI then false
  else if isDocker && !showDockerNodes then false
  else true

/-- The `displayNodes` memo of the second component (`App`, with the Docker
filters): filter, then restyle. -/
def displayNodesB (nodes : List Node)
    (dockerAnalysis : List (String × DockerAnalysisResult))
    (showDockerOnly showDockerNodes : Bool)
    (highlightedNode : Option String) (activeFilters : List String) :
    List Node :=
  (nodes.filter (displayKeep dockerAnalysis showDockerOnly showDockerNodes)).map
    (restyleNode highlightedNode activeFilters)

/-- The edge set handed to the renderer by `App`
(`<ReactFlowDynamic nodes={displayNodes} edges={edges} ...>`): the base edge
set, unfiltered. -/
def displayEdgesB (edges : List Edge) : List Edge := edges

/-! ## Search handler (first component, lines 659-680) -/

/-- The pieces of component state that `handleSearch` reads or writes.  The
Fuse.js index is an external collaborator, modelled as an abstract search
function present once the index has been built (`fuse` is `null` before). -/
structure SearchState where
  searchTerm : String
  highlightedNode : Option String
  searchResults : List Node
  showSearchResults : Bool
  nodes : List Node
  edges : List Edge

/-- `handleSearch(term)`. -/
def handleSearch (fuse : Option (String → List Node)) (st : SearchState)
    (term : String) : SearchState :=
  let st := { st with searchTerm := term }
  match fuse with
  | none =>
    { st with
      highlightedNode := none
      searchResults := []
      showSearchResults := false }
  | some f =>
    if strTrim term = "" then
      { st with
        highlightedNode := none
        searchResults := []
        showSearchResults := false }
    else
      let foundNodes := f term
      { st with
        searchResults := foundNodes
        showSearchResults := decide (0 < foundNodes.length)
        highlightedNode :=
          match foundNodes with
          | n :: _ => some n.id
          | [] => st.highlightedNode }

/-! ## Shared lemmas about the association-list and edge-list primitives -/

theorem alookup_append_left {β : Type} (m l : List (String × β)) (k : String)
    (h : (alookup m k).isSome) : alookup (m ++ l) k = alookup m k := by
  induction m with
  | nil => simp [alookup] at h
  | cons p rest ih =>
    by_cases hp : p.1 = k
    · simp [alookup, hp]
    · simp [alookup, hp] at h ⊢
      exact ih h

theorem alookup_append_right {β : Type} (m l : List (String × β)) (k : String)
    (h : alookup m k = none) : alookup (m ++ l) k = alookup l k := by
  induction m with
  | nil => simp
  | cons p rest ih =>
    by_cases hp : p.1 = k
    · simp [alookup, hp] at h
    · simp [alookup, hp] at h ⊢
      exact ih h

theorem alookup_eq_none_iff {β : Type} (m : List (String × β)) (k : String) :
    alookup m k = none ↔ k ∉ m.map (·.1) := by
  induction m with
  | nil => simp [alookup]
  | cons p rest ih =>
    by_cases hp : p.1 = k
    · simp [alookup, hp]
    · simp [alookup, hp, ih]
      intro h
      exact fun hk => hp hk.symm

theorem alookup_mapReplace_self (m : NodeMap) (k : String) (v : Node)
    (h : (alookup m k).isSome) :
    alookup (m.map (fun p => if p.1 = k then (k, v) else p)) k = some v := by
  induction m with
  | nil => simp [alookup] at h
  | cons p rest ih =>
    by_cases hp : p.1 = k
    · simp [alookup, hp]
    · simp only [alookup, hp, if_false] at h
      simp [alookup, hp, ih h]

theorem alookup_mapReplace_ne (m : NodeMap) (k k' : String) (v : Node)
    (h : k' ≠ k) :
    alookup (m.map (fun p => if p.1 = k then (k, v) else p)) k' =
      alookup m k' := by
  induction m with
  | nil => rfl
  | cons p rest ih =>
    by_cases hp : p.1 = k
    · have hp' : p.1 ≠ k' := by rw [hp]; exact fun hh => h hh.symm
      simp [alookup, hp, Ne.symm h, hp', ih]
    · simp only [List.map_cons, alookup, hp, if_false]
      by_cases hp' : p.1 = k'
      · simp [hp']
      · simp [hp', ih]

theorem mapSet_alookup_self (m : NodeMap) (k : String) (v : Node) :
    alookup (mapSet m k v) k = some v := by
  cases hm : alookup m k with
  | some v' =>
    have hs : (alookup m k).isSome := by rw [hm]; rfl
    unfold mapSet
    rw [hm]
    simpa using alookup_mapReplace_self m k v hs
  | none =>
    unfold mapSet
    rw [hm]
    simp only [Option.isSome_none, Bool.false_eq_true, if_false]
    rw [alookup_append_right m _ k hm]
    simp [alookup]

theorem mapSet_alookup_ne (m : NodeMap) (k k' : String) (v : Node)
    (h : k' ≠ k) : alookup (mapSet m k v) k' = alookup m k' := by
  cases hm : alookup m k with
  | some v' =>
    unfold mapSet
    rw [hm]
    simpa using alookup_mapReplace_ne m k k' v h
  | none =>
    unfold mapSet
    rw [hm]
    simp only [Option.isSome_none, Bool.false_eq_true, if_false]
    cases hm' : alookup m k' with
    | some v' => rw [alookup_append_left m _ k' (by rw [hm']; rfl), hm']
    | none =>
      rw [alookup_append_right m _ k' hm']
      simp only [alookup]
      rw [if_neg (fun hh => h hh.symm)]

theorem mapSet_isSome_mono (m : NodeMap) (k k' : String) (v : Node)
    (h : (alookup m k').isSome) : (alookup (mapSet m k v) k').isSome := by
  by_cases hk : k' = k
  · subst hk; rw [mapSet_alookup_self]; rfl
  · rw [mapSet_alookup_ne m k k' v hk]; exact h

theorem mapSet_keys_present (m : NodeMap) (k : String) (v : Node)
    (h : (alookup m k).isSome) :
    (mapSet m k v).map (·.1) = m.map (·.1) := by
  unfold mapSet
  simp only [h, if_true, List.map_map]
  apply List.map_congr_left
  intro p _
  by_cases hp : p.1 = k
  · simp [Function.comp, hp]
  · simp [Function.comp, hp]

theorem mapSet_keys_absent (m : NodeMap) (k : String) (v : Node)
    (h : alookup m k = none) :
    (mapSet m k v).map (·.1) = m.map (·.1) ++ [k] := by
  unfold mapSet
  simp [h]

theorem mapSet_of_absent (m : NodeMap) (k : String) (v : Node)
    (h : alookup m k = none) : mapSet m k v = m ++ [(k, v)] := by
  unfold mapSet
  simp [h]

theorem mapSet_keys_nodup (m : NodeMap) (k : String) (v : Node)
    (h : (m.map (·.1)).Nodup) : ((mapSet m k v).map (·.1)).Nodup := by
  cases hm : alookup m k with
  | some v' =>
    rw [mapSet_keys_present m k v (by rw [hm]; rfl)]
    exact h
  | none =>
    rw [mapSet_keys_absent m k v hm]
    have hk : k ∉ m.map (·.1) := (alookup_eq_none_iff m k).1 hm
    simp [List.nodup_append, h, hk]

theorem pushEdge_mem_id (l : List Edge) (e : Edge) :
    l.any (fun x => x.id = e.id) = true ↔ e.id ∈ l.map (·.id) := by
  simp [List.any_eq_true]

theorem pushEdge_of_fresh (l : List Edge) (e : Edge)
    (h : e.id ∉ l.map (·.id)) : pushEdge l e = l ++ [e] := by
  unfold pushEdge
  rw [if_neg]
  intro hc
  exact h ((pushEdge_mem_id l e).1 hc)

theorem pushEdge_ids_nodup (l : List Edge) (e : Edge)
    (h : (l.map (·.id)).Nodup) : ((pushEdge l e).map (·.id)).Nodup := by
  unfold pushEdge
  by_cases hc : l.any (fun x => x.id = e.id) = true
  · simp [hc, h]
  · simp only [hc, if_false]
    have : e.id ∉ l.map (·.id) := fun hm => hc ((pushEdge_mem_id l e).2 hm)
    simp [List.nodup_append, h, this]

theorem pushEdge_sublist (l : List Edge) (e : Edge) (x : Edge)
    (h : x ∈ l) : x ∈ pushEdge l e := by
  unfold pushEdge
  by_cases hc : l.any (fun y => y.id = e.id) = true
  · simpa [hc]
  · simp [hc, h]

/-! ## C9: empty or whitespace search terms clear the search state -/

/-- C9: for every search term that is empty or consists only of whitespace
(or when no search index has been built yet), `handleSearch` clears the
highlighted node, empties the search-result list, hides the results panel,
and leaves the base node and edge sets unchanged. -/
theorem search_empty_clears (fuse : Option (String → List Node))
    (st : SearchState) (term : String)
    (h : strTrim term = "" ∨ fuse = none) :
    (handleSearch fuse st term).highlightedNode = none ∧
    (handleSearch fuse st term).searchResults = [] ∧
    (handleSearch fuse st term).showSearchResults = false ∧
    (handleSearch fuse st term).nodes = st.nodes ∧
    (handleSearch fuse st term).edges = st.edges ∧
    (handleSearch fuse st term).searchTerm = term := by
  rcases h with h | h
  · cases fuse <;> simp [handleSearch, h]
  · subst h
    simp [handleSearch]

/-- Witness for `search_empty_clears` at a concrete whitespace-only term
with a built index. -/
theorem search_empty_clears_inst :
    (handleSearch (some fun _ => []) ⟨"", none, [], false, [], []⟩ "   ").highlightedNode = none ∧
    (handleSearch (some fun _ => []) ⟨"", none, [], false, [], []⟩ "   ").searchResults = [] ∧
    (handleSearch (some fun _ => []) ⟨"", none, [], false, [], []⟩ "   ").showSearchResults = false ∧
    (handleSearch (some fun _ => []) ⟨"", none, [], false, [], []⟩ "   ").nodes = [] ∧
    (handleSearch (some fun _ => []) ⟨"", none, [], false, [], []⟩ "   ").edges = [] ∧
    (handleSearch (some fun _ => []) ⟨"", none, [], false, [], []⟩ "   ").searchTerm = "   " :=
  search_empty_clears (some fun _ => []) ⟨"", none, [], false, [], []⟩ "   "
    (Or.inl (by decide))

/-! ## C10: annotation entries with `hasDockerIntegration = false` contribute
nothing -/

/-- C10: an annotation entry whose `hasDockerIntegration` flag is false
contributes no Docker capability nodes and no capability edges, even when its
`dockerApis`/`dockerTools` arrays are non-empty: the build with the entry
equals the build without it. -/
theorem no_integration_no_capabilities (elements : List CytoscapeElement)
    (pre post : List (String × DockerAnalysisResult)) (k : String)
    (a : DockerAnalysisResult) (h : a.hasDockerIntegration = false) :
    buildGraph elements (pre ++ (k, a) :: post) =
      buildGraph elements (pre ++ post) := by
  unfold buildGraph
  rw [List.foldl_append, List.foldl_append, List.foldl_cons]
  have : processDockerEntry (List.foldl processDockerEntry (buildBase elements) pre) (k, a) =
      List.foldl processDockerEntry (buildBase elements) pre := by
    unfold processDockerEntry
    simp [h]
  rw [this]

/-- Witness for `no_integration_no_capabilities` at a flag-false entry with
non-empty capability arrays. -/
theorem no_integration_no_capabilities_inst :
    buildGraph [CytoscapeElement.node "a.ts" none none none]
        [("github:a.ts",
          { hasDockerIntegration := false
            dockerTools := ["compose"]
            dockerApis := [{ name := some "x", apiType := none, description := "d",
                             line := none, codeSnippet := none }]
            summary := "s" })] =
      buildGraph [CytoscapeElement.node "a.ts" none none none] [] :=
  no_integration_no_capabilities [CytoscapeElement.node "a.ts" none none none]
    [] []
    "github:a.ts"
    { hasDockerIntegration := false
      dockerTools := ["compose"]
      dockerApis := [{ name := some "x", apiType := none, description := "d",
                       line := none, codeSnippet := none }]
      summary := "s" }
    rfl

/-! ## C8: toggling a category filter twice restores the displayed view -/

theorem jsSetDelete_of_not_mem (l : List String) (s : String) (h : s ∉ l) :
    jsSetDelete l s = l := by
  induction l with
  | nil => rfl
  | cons a as ih =>
    simp only [List.mem_cons, not_or] at h
    simp [jsSetDelete, Ne.symm h.1, ih h.2]

theorem jsSetDelete_append_singleton (l : List String) (s : String)
    (h : s ∉ l) : jsSetDelete (l ++ [s]) s = l := by
  induction l with
  | nil => simp [jsSetDelete]
  | cons a as ih =>
    simp only [List.mem_cons, not_or] at h
    simp [jsSetDelete, Ne.symm h.1, ih h.2]

theorem mem_jsSetDelete_iff (l : List String) (s c : String) (h : l.Nodup) :
    c ∈ jsSetDelete l s ↔ c ∈ l ∧ c ≠ s := by
  induction l with
  | nil => simp [jsSetDelete]
  | cons a as ih =>
    rcases List.nodup_cons.mp h with ⟨ha, has⟩
    by_cases hs : a = s
    · subst hs
      simp only [jsSetDelete, if_pos rfl]
      constructor
      · intro hc
        exact ⟨List.mem_cons_of_mem _ hc, fun he => ha (he ▸ hc)⟩
      · rintro ⟨hc, hne⟩
        rcases List.mem_cons.mp hc with rfl | hc
        · exact absurd rfl hne
        · exact hc
    · simp only [jsSetDelete, if_neg hs, List.mem_cons, ih has]
      constructor
      · rintro (rfl | ⟨hc, hne⟩)
        · exact ⟨Or.inl rfl, fun he => hs (he ▸ rfl)⟩
        · exact ⟨Or.inr hc, hne⟩
      · rintro ⟨rfl | hc, hne⟩
        · exact Or.inl rfl
        · exact Or.inr ⟨hc, hne⟩

theorem not_mem_jsSetDelete (l : List String) (s : String) (h : l.Nodup) :
    s ∉ jsSetDelete l s := by
  intro hc
  exact ((mem_jsSetDelete_iff l s s h).mp hc).2 rfl

theorem jsSetDelete_length_lt (l : List String) (s : String) (h : s ∈ l) :
    (jsSetDelete l s).length + 1 = l.length := by
  induction l with
  | nil => simp at h
  | cons a as ih =>
    by_cases hs : a = s
    · simp [jsSetDelete, hs]
    · have : s ∈ as := by
        rcases List.mem_cons.mp h with rfl | hmem
        · exact absurd rfl hs
        · exact hmem
      simp [jsSetDelete, hs, ih this]

/-- C8: toggling a category filter on and then off returns the displayed
graph (the first component's `displayNodes` derivation) to exactly the state
it had before the two toggles. -/
theorem filter_toggle_involutive (nodes : List Node) (hl : Option String)
    (s : List String) (ft : String) (h : s.Nodup) :
    displayNodesA nodes hl (toggleFilter (toggleFilter s ft) ft) =
      displayNodesA nodes hl s := by
  by_cases hmem : ft ∈ s
  · -- delete first, then re-add at the end: same membership, same emptiness
    have h1 : toggleFilter s ft = jsSetDelete s ft := by
      simp [toggleFilter, hmem]
    have hnot : ft ∉ jsSetDelete s ft := not_mem_jsSetDelete s ft h
    have h2 : toggleFilter (jsSetDelete s ft) ft = jsSetDelete s ft ++ [ft] := by
      simp [toggleFilter, hnot]
    rw [h1, h2]
    unfold displayNodesA
    apply List.map_congr_left
    intro n _
    unfold restyleNode
    congr 1
    have hemptyL : (jsSetDelete s ft ++ [ft]).isEmpty = false := by
      simp [List.isEmpty_iff]
    have hemptyR : s.isEmpty = false := by
      rcases s with _ | ⟨a, as⟩
      · simp at hmem
      · rfl
    have hmemiff : ∀ c, (c ∈ jsSetDelete s ft ++ [ft]) ↔ c ∈ s := by
      intro c
      rw [List.mem_append, mem_jsSetDelete_iff s ft c h]
      constructor
      · rintro (⟨hc, _⟩ | hc)
        · exact hc
        · have : c = ft := by simpa using hc
          exact this ▸ hmem
      · intro hc
        by_cases hce : c = ft
        · exact Or.inr (by simp [hce])
        · exact Or.inl ⟨hc, hce⟩
    rw [hemptyL, hemptyR]
    have : decide (getNodeType n.id n.data.nodeType ∈ jsSetDelete s ft ++ [ft]) =
        decide (getNodeType n.id n.data.nodeType ∈ s) :=
      decide_eq_decide.mpr (hmemiff _)
    rw [this]
  · -- add then delete from the end: exactly the original list
    have h1 : toggleFilter s ft = s ++ [ft] := by
      simp [toggleFilter, hmem]
    have h2 : toggleFilter (s ++ [ft]) ft = s := by
      have : ft ∈ s ++ [ft] := by simp
      simp only [toggleFilter, if_pos this]
      exact jsSetDelete_append_singleton s ft hmem
    rw [h1, h2]

/-- Witness for `filter_toggle_involutive` at a concrete nodup filter set. -/
theorem filter_toggle_involutive_inst :
    displayNodesA [mkFileNode "a.ts" none none none] none
        (toggleFilter (toggleFilter ["pages"] "pages") "pages") =
      displayNodesA [mkFileNode "a.ts" none none none] none ["pages"] :=
  filter_toggle_involutive [mkFileNode "a.ts" none none none] none
    ["pages"] "pages" (by decide)

/-! ## C6: category inference order and patterns -/

/-- Model of JavaScript `s.endsWith(sub)`, needed only to transcribe the
claim's ".d suffix" wording. -/
def strEnds (s sub : String) : Bool := isPfxOf sub.data.reverse s.data.reverse

/-- Modelled from the claim's words (C6), for comparison with the source's
`getNodeType`: hook matching by hook-directory or a `"use"` *prefix*, type
matching by type-directory or a `".d"` *suffix*. -/
def getNodeTypeClaim (id : String) (nodeType : Option String) : String :=
  let explicit : Option String :=
    match nodeType with
    | some s => if s ≠ "" ∧ s ∈ fileTypeKeys then some s else none
    | none => none
  match explicit with
  | some s => s
  | none =>
    if strIncl id "pages/" then "pages"
    else if strIncl id "components/" then "components"
    else if strIncl id "utils/" then "utils"
    else if strIncl id "lib/" then "lib"
    else if strIncl id "hooks/" || strStarts id "use" then "hooks"
    else if strIncl id "types/" || strEnds id ".d" then "types"
    else if strIncl id "api/" then "api"
    else "default"

/-- Counterexample to C6: `"caused.ts"` contains `"use"` as a substring but
neither starts with `"use"` nor mentions a hook directory, so the source
classifies it `hooks` while the claim's pattern list yields the default
category. -/
theorem category_use_substring_example :
    getNodeType "caused.ts" none = "hooks" ∧
    getNodeTypeClaim "caused.ts" none = "default" ∧
    strStarts "caused.ts" "use" = false ∧
    strIncl "caused.ts" "hooks/" = false ∧
    getNodeType "caused.ts" none ≠ getNodeTypeClaim "caused.ts" none := by
  decide

/-- The ordered substring rule table actually implemented by `getNodeType`. -/
def categoryRules : List (List String × String) :=
  [ (["pages/", "app/"], "pages"),
    (["components/"], "components"),
    (["utils/"], "utils"),
    (["lib/"], "lib"),
    (["hooks/", "use"], "hooks"),
    (["types/", ".d.ts"], "types"),
    (["api/"], "api") ]

/-- Top-to-bottom evaluation of an ordered pattern table: first rule one of
whose patterns occurs as a substring of the identifier wins. -/
def ruleEval (rules : List (List String × String)) (dflt : String)
    (id : String) : String :=
  match rules with
  | [] => dflt
  | r :: rest => if r.1.any (fun p => strIncl id p) then r.2 else ruleEval rest dflt id

/-- The raw elements of Scenario A. -/
def scenA : List CytoscapeElement :=
  [CytoscapeElement.node "a.ts" none none none,
   CytoscapeElement.node "b.ts" none none none,
   CytoscapeElement.edge "a.ts" "b.ts" none]

/-- C6 (amended: the hook rule matches `"use"` as a substring anywhere, not
only as a prefix, the page rule also matches `"app/"`, and the type rule
matches the substring `".d.ts"`): for identifiers without a valid explicit
category, the inferred category is the top-to-bottom first match of the fixed
ordered substring rule table, with `"default"` when nothing matches; in
Scenario A both `a.ts` and `b.ts` get the default category. -/
theorem category_rule_table (id : String) (nt : Option String)
    (h : nt = none ∨ ∃ s, nt = some s ∧ (s = "" ∨ s ∉ fileTypeKeys)) :
    getNodeType id nt = ruleEval categoryRules "default" id ∧
    (alookup (buildGraph scenA []).1 "a.ts").map (·.data.fileType) = some "default" ∧
    (alookup (buildGraph scenA []).1 "b.ts").map (·.data.fileType) = some "default" := by
  refine ⟨?_, by decide, by decide⟩
  have hexpl : getNodeType id nt =
      (if strIncl id "pages/" || strIncl id "app/" then "pages"
       else if strIncl id "components/" then "components"
       else if strIncl id "utils/" then "utils"
       else if strIncl id "lib/" then "lib"
       else if strIncl id "hooks/" || strIncl id "use" then "hooks"
       else if strIncl id "types/" || strIncl id ".d.ts" then "types"
       else if strIncl id "api/" then "api"
       else "default") := by
    rcases h with rfl | ⟨s, rfl, hs⟩
    · rfl
    · unfold getNodeType
      rcases hs with rfl | hs
      · simp
      · simp [hs]
  rw [hexpl]
  simp [ruleEval, categoryRules, List.any_cons, List.any_nil, Bool.or_false]

/-- Witness for `category_rule_table` at an identifier with an invalid
explicit category. -/
theorem category_rule_table_inst :
    getNodeType "src/misc/z.ts" (some "bogus") =
      ruleEval categoryRules "default" "src/misc/z.ts" ∧
    (alookup (buildGraph scenA []).1 "a.ts").map (·.data.fileType) = some "default" ∧
    (alookup (buildGraph scenA []).1 "b.ts").map (·.data.fileType) = some "default" :=
  category_rule_table "src/misc/z.ts" (some "bogus")
    (Or.inr ⟨"bogus", rfl, Or.inr (by decide)⟩)

/-! ## C5: the displayed-graph derivation of `App` -/

/-- Restyling preserves everything except the style record. -/
theorem restyleNode_id (hl : Option String) (af : List String) (n : Node) :
    (restyleNode hl af n).id = n.id := rfl

theorem restyleNode_data (hl : Option String) (af : List String) (n : Node) :
    (restyleNode hl af n).data = n.data := rfl

/-- A node that survives the second component's display filter satisfies both
visibility conditions. -/
theorem displayKeep_spec (anns : List (String × DockerAnalysisResult))
    (sdo sdn : Bool) (n : Node)
    (h : displayKeep anns sdo sdn n = true) :
    (sdo = true → isDockerNode n = true ∨ hasDockerIntegrationOf anns n.id = true) ∧
    (sdn = false → isDockerNode n = false) := by
  unfold displayKeep at h
  constructor
  · intro hsdo
    subst hsdo
    by_cases hd : isDockerNode n = true
    · exact Or.inl hd
    · by_cases hh : hasDockerIntegrationOf anns n.id = true
      · exact Or.inr hh
      · rw [Bool.not_eq_true] at hd hh
        simp [hd, hh] at h
  · intro hsdn
    subst hsdn
    by_cases hd : isDockerNode n = true
    · simp [hd] at h
    · rwa [Bool.not_eq_true] at hd

/-- Counterexample to C5: with the Docker-only filter ACTIVE
(`showDockerOnly = true`), the plain file node `a` — neither a Docker
capability node nor a file with a Docker-integration record — is excluded
from the displayed node set, yet the capability edge whose source is that
excluded node is still present in the edge set handed to the renderer
(`edges={edges}` is passed unfiltered), contradicting the claim that every
edge with an excluded endpoint is also excluded. -/
theorem display_edges_not_filtered_example :
    ("a" ∉
      (displayNodesB [mkFileNode "a" none none none, capToolNode "a" 0 "compose"]
        [] true true none []).map (·.id)) ∧
    capToolEdge "a" (capToolNode "a" 0 "compose").id ∈
      displayEdgesB [capToolEdge "a" (capToolNode "a" 0 "compose").id] ∧
    (capToolEdge "a" (capToolNode "a" 0 "compose").id).source = "a" := by
  decide

/-- C5 (amended: the node-filtering rules hold as stated, but the displayed
edge set is the unfiltered base edge set — edges with excluded endpoints are
NOT removed by the derivation): every displayed node passes the Docker-only
filter test and the Docker-visibility test, and the displayed edges are
exactly the base edges. -/
theorem display_filter_policy (nodes : List Node)
    (anns : List (String × DockerAnalysisResult)) (sdo sdn : Bool)
    (hl : Option String) (af : List String) (edges : List Edge) :
    (∀ n ∈ displayNodesB nodes anns sdo sdn hl af,
        (sdo = true → isDockerNode n = true ∨ hasDockerIntegrationOf anns n.id = true) ∧
        (sdn = false → isDockerNode n = false)) ∧
    displayEdgesB edges = edges := by
  refine ⟨?_, rfl⟩
  intro n hn
  unfold displayNodesB at hn
  rcases List.mem_map.mp hn with ⟨n0, hn0, rfl⟩
  rcases List.mem_filter.mp hn0 with ⟨_, hkeep⟩
  have hdock : isDockerNode (restyleNode hl af n0) = isDockerNode n0 := rfl
  have hid : (restyleNode hl af n0).id = n0.id := rfl
  rw [hdock, hid]
  exact displayKeep_spec anns sdo sdn n0 hkeep

/-- Witness for `display_filter_policy`: a Docker tool node shown under the
active Docker-only filter. -/
theorem display_filter_policy_inst :
    isDockerNode (restyleNode none [] (capToolNode "a" 0 "x")) = true ∨
    hasDockerIntegrationOf [] (restyleNode none [] (capToolNode "a" 0 "x")).id = true :=
  ((display_filter_policy [capToolNode "a" 0 "x"] [] true true none [] []).1
    (restyleNode none [] (capToolNode "a" 0 "x")) (by decide)).1 rfl

/-! ## C3: determinism of build and layout -/

theorem dagreSetNode_mem_mono (st : DagreState) (id x : String)
    (h : x ∈ st.nodes) : x ∈ (dagreSetNode st id).nodes := by
  unfold dagreSetNode
  by_cases hm : id ∈ st.nodes
  · simpa [hm]
  · simp [hm, h]

theorem regNodes_mono (st : DagreState) (l : List Node) (x : String)
    (h : x ∈ st.nodes) :
    x ∈ (l.foldl (fun s n => dagreSetNode s n.id) st).nodes := by
  induction l generalizing st with
  | nil => exact h
  | cons a as ih =>
    rw [List.foldl_cons]
    exact ih _ (dagreSetNode_mem_mono _ _ _ h)

theorem regNodes_mem (st : DagreState) (l : List Node) :
    ∀ n ∈ l, n.id ∈ (l.foldl (fun s n => dagreSetNode s n.id) st).nodes := by
  induction l generalizing st with
  | nil => intro n hn; simp at hn
  | cons a as ih =>
    intro n hn
    rw [List.foldl_cons]
    rcases List.mem_cons.mp hn with rfl | hn
    · apply regNodes_mono
      unfold dagreSetNode
      by_cases hm : n.id ∈ st.nodes
      · simp [hm]
      · simp [hm]
    · exact ih _ n hn

theorem regNodes_of_all_mem (st : DagreState) (l : List Node)
    (h : ∀ n ∈ l, n.id ∈ st.nodes) :
    l.foldl (fun s n => dagreSetNode s n.id) st = st := by
  induction l generalizing st with
  | nil => rfl
  | cons a as ih =>
    rw [List.foldl_cons]
    have ha : dagreSetNode st a.id = st := by
      unfold dagreSetNode
      simp [h a (List.mem_cons_self a as)]
    rw [ha]
    exact ih st (fun n hn => h n (List.mem_cons_of_mem a hn))

theorem dagreSetEdge_nodes (st : DagreState) (s t : String) :
    (dagreSetEdge st s t).nodes = st.nodes := by
  unfold dagreSetEdge
  by_cases hm : (s, t) ∈ st.edges <;> simp [hm]

theorem regEdges_nodes (st : DagreState) (l : List Edge) :
    (l.foldl (fun s e => dagreSetEdge s e.source e.target) st).nodes = st.nodes := by
  induction l generalizing st with
  | nil => rfl
  | cons a as ih => rw [List.foldl_cons, ih, dagreSetEdge_nodes]

theorem dagreSetEdge_mem_mono (st : DagreState) (s t : String)
    (x : String × String) (h : x ∈ st.edges) :
    x ∈ (dagreSetEdge st s t).edges := by
  unfold dagreSetEdge
  by_cases hm : (s, t) ∈ st.edges
  · simpa [hm]
  · simp [hm, h]

theorem regEdges_mono (st : DagreState) (l : List Edge) (x : String × String)
    (h : x ∈ st.edges) :
    x ∈ (l.foldl (fun s e => dagreSetEdge s e.source e.target) st).edges := by
  induction l generalizing st with
  | nil => exact h
  | cons a as ih =>
    rw [List.foldl_cons]
    exact ih _ (dagreSetEdge_mem_mono _ _ _ _ h)

theorem regEdges_mem (st : DagreState) (l : List Edge) :
    ∀ e ∈ l, (e.source, e.target) ∈
      (l.foldl (fun s e => dagreSetEdge s e.source e.target) st).edges := by
  induction l generalizing st with
  | nil => intro e he; simp at he
  | cons a as ih =>
    intro e he
    rw [List.foldl_cons]
    rcases List.mem_cons.mp he with rfl | he
    · apply regEdges_mono
      unfold dagreSetEdge
      by_cases hm : (e.source, e.target) ∈ st.edges
      · simp [hm]
      · simp [hm]
    · exact ih _ e he

theorem regEdges_of_all_mem (st : DagreState) (l : List Edge)
    (h : ∀ e ∈ l, (e.source, e.target) ∈ st.edges) :
    l.foldl (fun s e => dagreSetEdge s e.source e.target) st = st := by
  induction l generalizing st with
  | nil => rfl
  | cons a as ih =>
    rw [List.foldl_cons]
    have ha : dagreSetEdge st a.source a.target = st := by
      unfold dagreSetEdge
      simp [h a (List.mem_cons_self a as)]
    rw [ha]
    exact ih st (fun e he => h e (List.mem_cons_of_mem a he))

/-- Counterexample to C3: the module-level dagre graph is reused across
calls, so laying out the unrelated single-node graph `{c}` first changes the
coordinates that a subsequent layout of `{a, b}` produces, compared to a
fresh engine. -/
theorem layout_depends_on_prior_calls :
    ((getLayoutedElements
        (getLayoutedElements dagreInit [mkFileNode "c" none none none] []).state
        [mkFileNode "a" none none none, mkFileNode "b" none none none] []).nodes.map
          (·.position)) ≠
    ((getLayoutedElements dagreInit
        [mkFileNode "a" none none none, mkFileNode "b" none none none] []).nodes.map
          (·.position)) := by
  decide

/-- C3 (amended: building twice with identical inputs and laying out twice
*in succession on the same engine* yields identical graph states, node sets,
coordinates and edge sets — registration of an already-registered graph is
idempotent — but the coordinates are NOT independent of earlier layout calls
on other graphs, because the module-level dagre instance accumulates node
registrations across calls). -/
theorem layout_repeat_idempotent (g : DagreState) (nodes : List Node)
    (edges : List Edge) :
    (getLayoutedElements (getLayoutedElements g nodes edges).state nodes edges).state =
      (getLayoutedElements g nodes edges).state ∧
    (getLayoutedElements (getLayoutedElements g nodes edges).state nodes edges).nodes =
      (getLayoutedElements g nodes edges).nodes ∧
    (getLayoutedElements (getLayoutedElements g nodes edges).state nodes edges).edges =
      (getLayoutedElements g nodes edges).edges := by
  have hstate :
      (getLayoutedElements (getLayoutedElements g nodes edges).state nodes edges).state =
        (getLayoutedElements g nodes edges).state := by
    show (edges.foldl (fun s e => dagreSetEdge s e.source e.target)
        (nodes.foldl (fun s n => dagreSetNode s n.id)
          (getLayoutedElements g nodes edges).state)) =
      (getLayoutedElements g nodes edges).state
    have h1 : nodes.foldl (fun s n => dagreSetNode s n.id)
        (getLayoutedElements g nodes edges).state =
        (getLayoutedElements g nodes edges).state := by
      apply regNodes_of_all_mem
      intro n hn
      show n.id ∈ (getLayoutedElements g nodes edges).state.nodes
      unfold getLayoutedElements
      rw [regEdges_nodes]
      exact regNodes_mem g nodes n hn
    rw [h1]
    apply regEdges_of_all_mem
    intro e he
    show (e.source, e.target) ∈ (getLayoutedElements g nodes edges).state.edges
    unfold getLayoutedElements
    exact regEdges_mem _ edges e he
  refine ⟨hstate, ?_, rfl⟩
  show nodes.map _ = nodes.map _
  apply List.map_congr_left
  intro n _
  have harg :
      (edges.foldl (fun s e => dagreSetEdge s e.source e.target)
        (nodes.foldl (fun s n => dagreSetNode s n.id)
          (getLayoutedElements g nodes edges).state)) =
      (edges.foldl (fun s e => dagreSetEdge s e.source e.target)
        (nodes.foldl (fun s n => dagreSetNode s n.id) g)) := by
    have := hstate
    unfold getLayoutedElements at this ⊢
    exact this
  rw [harg]

/-! ## C1: edge endpoints and referential integrity -/

/-- The edge-only reading of the raw-element fold: what the edge branch of
the `data.forEach` does, never consulting the node map. -/
def edgeStep (acc : List Edge) (el : CytoscapeElement) : List Edge :=
  match el with
  | .node _ _ _ _ => acc
  | .edge s t type? => pushEdge acc (mkDepEdge s t type?)

/-- The edge component of phase 1 is computed without ever reading the node
map: there is no endpoint check. -/
theorem buildBase_edges_eq (elems : List CytoscapeElement)
    (st : NodeMap × List Edge) :
    (elems.foldl processElement st).2 = elems.foldl edgeStep st.2 := by
  induction elems generalizing st with
  | nil => rfl
  | cons el rest ih =>
    cases el with
    | node id t l s => rw [List.foldl_cons, List.foldl_cons]; exact ih _
    | edge s t ty => rw [List.foldl_cons, List.foldl_cons]; exact ih _

theorem mem_pushEdge_elim (l : List Edge) (e x : Edge)
    (h : x ∈ pushEdge l e) : x ∈ l ∨ x = e := by
  unfold pushEdge at h
  by_cases hc : l.any (fun y => y.id = e.id) = true
  · rw [if_pos hc] at h
    exact Or.inl h
  · rw [if_neg hc] at h
    rcases List.mem_append.mp h with h | h
    · exact Or.inl h
    · exact Or.inr (by simpa using h)

/-- Generic invariant-preservation through the indexed fold. -/
theorem foldIdx_inv {α β : Type} (P : α → Prop) (f : α → Nat × β → α)
    (hf : ∀ a i b, P a → P (f a (i, b))) :
    ∀ (l : List β) (a : α) (i : Nat), P a → P (foldIdx f a i l) := by
  intro l
  induction l with
  | nil => intro a i h; exact h
  | cons b bs ih =>
    intro a i h
    exact ih _ _ (hf a i b h)

/-- The referential-integrity invariant carried through the Docker
augmentation: every edge is a raw phase-1 edge or has its target key present
in the node map. -/
def EdgeInv (base : List Edge) (st : NodeMap × List Edge) : Prop :=
  ∀ e ∈ st.2, e ∈ base ∨ (alookup st.1 e.target).isSome

theorem stepApi_inv (base : List Edge) (f : String) (st : NodeMap × List Edge)
    (i : Nat) (api : DockerAPI) (h : EdgeInv base st) :
    EdgeInv base (stepApi f st (i, api)) := by
  intro e he
  have he' : e ∈ pushEdge st.2 (capApiEdge f (capApiNode f i api).id) := he
  rcases mem_pushEdge_elim _ _ _ he' with hmem | rfl
  · rcases h e hmem with hb | hs
    · exact Or.inl hb
    · exact Or.inr (mapSet_isSome_mono _ _ _ _ hs)
  · right
    show (alookup (mapSet st.1 (capApiNode f i api).id (capApiNode f i api))
      (capApiEdge f (capApiNode f i api).id).target).isSome
    have ht : (capApiEdge f (capApiNode f i api).id).target = (capApiNode f i api).id := rfl
    rw [ht, mapSet_alookup_self]
    rfl

theorem stepTool_inv (base : List Edge) (f : String) (st : NodeMap × List Edge)
    (i : Nat) (tool : String) (h : EdgeInv base st) :
    EdgeInv base (stepTool f st (i, tool)) := by
  intro e he
  have he' : e ∈ pushEdge st.2 (capToolEdge f (capToolNode f i tool).id) := he
  rcases mem_pushEdge_elim _ _ _ he' with hmem | rfl
  · rcases h e hmem with hb | hs
    · exact Or.inl hb
    · exact Or.inr (mapSet_isSome_mono _ _ _ _ hs)
  · right
    show (alookup (mapSet st.1 (capToolNode f i tool).id (capToolNode f i tool))
      (capToolEdge f (capToolNode f i tool).id).target).isSome
    have ht : (capToolEdge f (capToolNode f i tool).id).target = (capToolNode f i tool).id := rfl
    rw [ht, mapSet_alookup_self]
    rfl

theorem processDockerEntry_inv (base : List Edge) (st : NodeMap × List Edge)
    (p : String × DockerAnalysisResult) (h : EdgeInv base st) :
    EdgeInv base (processDockerEntry st p) := by
  unfold processDockerEntry
  by_cases hflag : p.2.hasDockerIntegration = true
  · rw [if_pos hflag]
    apply foldIdx_inv (EdgeInv base) _ (fun a i b ha => stepTool_inv base _ a i b ha)
    apply foldIdx_inv (EdgeInv base) _ (fun a i b ha => stepApi_inv base _ a i b ha)
    exact h
  · rw [if_neg hflag]
    exact h

/-- Counterexample to C1: a raw edge descriptor whose endpoints are nowhere
in the element list is NOT skipped — the output graph has the edge and no
nodes at all. -/
theorem build_adds_edge_without_endpoints :
    (buildGraph [CytoscapeElement.edge "x" "y" none] []).1 = [] ∧
    (buildGraph [CytoscapeElement.edge "x" "y" none] []).2.map (·.id) = ["x->y"] := by
  decide

/-- C1 (amended: edge descriptors are added with only id-deduplication and
no endpoint check — edges whose endpoints are missing are kept, not skipped —
while every synthesized capability edge always has its target present as a
node in the final graph; so referential integrity can fail only for raw
dependency edges, or for the source endpoint of a capability edge). -/
theorem build_edge_endpoint_policy (elements : List CytoscapeElement)
    (anns : List (String × DockerAnalysisResult)) :
    (buildBase elements).2 = elements.foldl edgeStep [] ∧
    ∀ e ∈ (buildGraph elements anns).2,
      e ∈ (buildBase elements).2 ∨
        (alookup (buildGraph elements anns).1 e.target).isSome := by
  constructor
  · exact buildBase_edges_eq elements ([], [])
  · have hfold : ∀ (l : List (String × DockerAnalysisResult))
        (st : NodeMap × List Edge), EdgeInv (buildBase elements).2 st →
        EdgeInv (buildBase elements).2 (l.foldl processDockerEntry st) := by
      intro l
      induction l with
      | nil => intro st h; exact h
      | cons p rest ih =>
        intro st h
        rw [List.foldl_cons]
        exact ih _ (processDockerEntry_inv _ _ _ h)
    exact hfold anns (buildBase elements) (fun e he => Or.inl he)

/-- Witness for `build_edge_endpoint_policy` at the endpoint-free edge and a
capability edge. -/
theorem build_edge_endpoint_policy_inst :
    (mkDepEdge "x" "y" none ∈ (buildBase [CytoscapeElement.edge "x" "y" none]).2 ∨
      (alookup (buildGraph [CytoscapeElement.edge "x" "y" none] []).1
        (mkDepEdge "x" "y" none).target).isSome) ∧
    (capToolEdge "a.ts" (capToolNode "a.ts" 0 "compose").id ∈ (buildBase []).2 ∨
      (alookup (buildGraph []
          [("github:a.ts",
            { hasDockerIntegration := true, dockerTools := ["compose"],
              dockerApis := [], summary := "s" })]).1
        (capToolEdge "a.ts" (capToolNode "a.ts" 0 "compose").id).target).isSome) :=
  ⟨(build_edge_endpoint_policy [CytoscapeElement.edge "x" "y" none] []).2
      (mkDepEdge "x" "y" none) (by decide),
   (build_edge_endpoint_policy []
      [("github:a.ts",
        { hasDockerIntegration := true, dockerTools := ["compose"],
          dockerApis := [], summary := "s" })]).2
      (capToolEdge "a.ts" (capToolNode "a.ts" 0 "compose").id) (by decide)⟩

/-! ## C2: duplicate identifiers -/

/-- Is this raw element a node descriptor with the given id? -/
def isNodeDescrFor (id : String) : CytoscapeElement → Bool
  | .node i _ _ _ => i = id
  | .edge _ _ _ => false

/-- The node a descriptor builds (junk on edge descriptors, which are
filtered out before use). -/
def mkNodeOfDescr : CytoscapeElement → Node
  | .node i t l s => mkFileNode i t l s
  | .edge _ _ _ => mkFileNode "" none none none

/-- Is this raw element an edge descriptor with the given edge id? -/
def isEdgeDescrFor (eid : String) : CytoscapeElement → Bool
  | .node _ _ _ _ => false
  | .edge s t _ => (s ++ "->" ++ t) = eid

/-- The edge a descriptor builds (junk on node descriptors, which are
filtered out before use). -/
def mkEdgeOfDescr : CytoscapeElement → Edge
  | .edge s t ty => mkDepEdge s t ty
  | .node _ _ _ _ => mkDepEdge "" "" none

/-- `edgeList.find(edge => edge.id === eid)`. -/
def findEdge (l : List Edge) (eid : String) : Option Edge :=
  l.find? (fun e => e.id = eid)

/-- Left-biased choice on options. -/
def firstOr (o o' : Option Edge) : Option Edge :=
  match o with
  | some e => some e
  | none => o'

theorem firstOr_none_right (o : Option Edge) : firstOr o none = o := by
  cases o <;> rfl

theorem findEdge_cons_pos (l : List Edge) (a : Edge) (eid : String)
    (h : a.id = eid) : findEdge (a :: l) eid = some a := by
  unfold findEdge
  rw [List.find?_cons_of_pos]
  simpa using h

theorem findEdge_cons_neg (l : List Edge) (a : Edge) (eid : String)
    (h : ¬a.id = eid) : findEdge (a :: l) eid = findEdge l eid := by
  unfold findEdge
  rw [List.find?_cons_of_neg]
  simpa using h

theorem findEdge_none_iff (l : List Edge) (eid : String) :
    findEdge l eid = none ↔ ∀ x ∈ l, ¬x.id = eid := by
  unfold findEdge
  rw [List.find?_eq_none]
  simp

theorem findEdge_append_singleton (l : List Edge) (e : Edge) (eid : String) :
    findEdge (l ++ [e]) eid =
      firstOr (findEdge l eid) (if e.id = eid then some e else none) := by
  induction l with
  | nil =>
    simp only [List.nil_append]
    by_cases he : e.id = eid
    · rw [findEdge_cons_pos [] e eid he, if_pos he]; rfl
    · rw [findEdge_cons_neg [] e eid he, if_neg he]; rfl
  | cons a as ih =>
    by_cases ha : a.id = eid
    · rw [List.cons_append, findEdge_cons_pos _ a eid ha,
        findEdge_cons_pos as a eid ha]
      rfl
    · rw [List.cons_append, findEdge_cons_neg _ a eid ha,
        findEdge_cons_neg as a eid ha, ih]

theorem pushEdge_of_found (l : List Edge) (e : Edge) (x : Edge)
    (h : findEdge l e.id = some x) : pushEdge l e = l := by
  unfold pushEdge
  rw [if_pos]
  rw [List.any_eq_true]
  have hmem := List.mem_of_find?_eq_some h
  have hpred := List.find?_some h
  simp only [decide_eq_true_eq] at hpred
  exact ⟨x, hmem, by simpa using hpred⟩

theorem pushEdge_of_not_found (l : List Edge) (e : Edge)
    (h : findEdge l e.id = none) : pushEdge l e = l ++ [e] := by
  unfold pushEdge
  rw [if_neg]
  rw [List.any_eq_true]
  rintro ⟨x, hx, hid⟩
  simp only [decide_eq_true_eq] at hid
  exact (findEdge_none_iff l e.id).mp h x hx hid

theorem findEdge_pushEdge_ne (l : List Edge) (e : Edge) (eid : String)
    (h : ¬e.id = eid) : findEdge (pushEdge l e) eid = findEdge l eid := by
  unfold pushEdge
  by_cases hc : l.any (fun y => y.id = e.id) = true
  · rw [if_pos hc]
  · rw [if_neg hc, findEdge_append_singleton, if_neg h, firstOr_none_right]

/-- The first-occurrence characterization of the edge fold: the edge found
for an id is the one already in the accumulator, or else the one built from
the first matching descriptor. -/
theorem foldl_edgeStep_findEdge (eid : String) :
    ∀ (elems : List CytoscapeElement) (acc : List Edge),
    findEdge (elems.foldl edgeStep acc) eid =
      firstOr (findEdge acc eid)
        (((elems.filter (isEdgeDescrFor eid)).head?).map mkEdgeOfDescr) := by
  intro elems
  induction elems with
  | nil =>
    intro acc
    simp only [List.foldl_nil, List.filter_nil, List.head?_nil]
    show findEdge acc eid = firstOr (findEdge acc eid) none
    rw [firstOr_none_right]
  | cons el rest ih =>
    intro acc
    cases el with
    | node i t l s =>
      rw [List.foldl_cons]
      show findEdge (rest.foldl edgeStep acc) eid = _
      rw [ih acc]
      simp [List.filter_cons, isEdgeDescrFor]
    | edge s t ty =>
      rw [List.foldl_cons]
      show findEdge (rest.foldl edgeStep (pushEdge acc (mkDepEdge s t ty))) eid = _
      by_cases hid : (s ++ "->" ++ t) = eid
      · have hfil : (CytoscapeElement.edge s t ty :: rest).filter (isEdgeDescrFor eid) =
            CytoscapeElement.edge s t ty :: rest.filter (isEdgeDescrFor eid) := by
          simp [List.filter_cons, isEdgeDescrFor, hid]
        rw [hfil]
        cases hacc : findEdge acc eid with
        | some x =>
          have heid : (mkDepEdge s t ty).id = eid := hid
          have : pushEdge acc (mkDepEdge s t ty) = acc := by
            apply pushEdge_of_found acc _ x
            rw [heid]; exact hacc
          rw [this, ih acc, hacc]
          rfl
        | none =>
          have heid : (mkDepEdge s t ty).id = eid := hid
          have hpush : pushEdge acc (mkDepEdge s t ty) = acc ++ [mkDepEdge s t ty] := by
            apply pushEdge_of_not_found
            rw [heid]; exact hacc
          rw [hpush, ih (acc ++ [mkDepEdge s t ty]),
            findEdge_append_singleton, hacc, if_pos heid]
          rfl
      · have hfil : (CytoscapeElement.edge s t ty :: rest).filter (isEdgeDescrFor eid) =
            rest.filter (isEdgeDescrFor eid) := by
          simp [List.filter_cons, isEdgeDescrFor, hid]
        rw [hfil, ih (pushEdge acc (mkDepEdge s t ty)),
          findEdge_pushEdge_ne acc _ eid hid]

/-- The last-occurrence characterization of the node map: a node id looks up
to the node built from the *last* node descriptor carrying that id. -/
theorem buildBase_lookup_last (elems : List CytoscapeElement) (id : String) :
    alookup (buildBase elems).1 id =
      ((elems.filter (isNodeDescrFor id)).getLast?).map mkNodeOfDescr := by
  induction elems using List.reverseRecOn with
  | nil => rfl
  | append_singleton l el ih =>
    unfold buildBase at ih ⊢
    rw [List.foldl_append, List.foldl_cons, List.foldl_nil, List.filter_append]
    cases el with
    | node i t lb s =>
      by_cases hi : i = id
      · subst hi
        have hfil : [CytoscapeElement.node i t lb s].filter (isNodeDescrFor i) =
            [CytoscapeElement.node i t lb s] := by
          simp [List.filter_cons, isNodeDescrFor]
        rw [hfil, List.getLast?_concat]
        show alookup (mapSet _ i (mkFileNode i t lb s)) i = _
        rw [mapSet_alookup_self]
        rfl
      · have hfil : [CytoscapeElement.node i t lb s].filter (isNodeDescrFor id) = [] := by
          simp [List.filter_cons, isNodeDescrFor, hi]
        rw [hfil, List.append_nil]
        show alookup (mapSet _ i (mkFileNode i t lb s)) id = _
        rw [mapSet_alookup_ne _ i id _ (fun h => hi h.symm)]
        exact ih
    | edge s t ty =>
      have hfil : [CytoscapeElement.edge s t ty].filter (isNodeDescrFor id) = [] := by
        simp [List.filter_cons, isNodeDescrFor]
      rw [hfil, List.append_nil]
      show alookup (l.foldl processElement ([], [])).1 id = _
      exact ih

/-- The uniqueness invariant carried through both build phases. -/
def KeysNodup (st : NodeMap × List Edge) : Prop :=
  (st.1.map (·.1)).Nodup ∧ (st.2.map (·.id)).Nodup

theorem processElement_nodup (st : NodeMap × List Edge) (el : CytoscapeElement)
    (h : KeysNodup st) : KeysNodup (processElement st el) := by
  cases el with
  | node i t l s => exact ⟨mapSet_keys_nodup _ _ _ h.1, h.2⟩
  | edge s t ty => exact ⟨h.1, pushEdge_ids_nodup _ _ h.2⟩

theorem stepApi_nodup (f : String) (st : NodeMap × List Edge)
    (i : Nat) (api : DockerAPI) (h : KeysNodup st) :
    KeysNodup (stepApi f st (i, api)) :=
  ⟨mapSet_keys_nodup _ _ _ h.1, pushEdge_ids_nodup _ _ h.2⟩

theorem stepTool_nodup (f : String) (st : NodeMap × List Edge)
    (i : Nat) (tool : String) (h : KeysNodup st) :
    KeysNodup (stepTool f st (i, tool)) :=
  ⟨mapSet_keys_nodup _ _ _ h.1, pushEdge_ids_nodup _ _ h.2⟩

theorem processDockerEntry_nodup (st : NodeMap × List Edge)
    (p : String × DockerAnalysisResult) (h : KeysNodup st) :
    KeysNodup (processDockerEntry st p) := by
  unfold processDockerEntry
  by_cases hflag : p.2.hasDockerIntegration = true
  · rw [if_pos hflag]
    apply foldIdx_inv KeysNodup _ (fun a i b ha => stepTool_nodup _ a i b ha)
    apply foldIdx_inv KeysNodup _ (fun a i b ha => stepApi_nodup _ a i b ha)
    exact h
  · rw [if_neg hflag]
    exact h

theorem buildGraph_nodup (elems : List CytoscapeElement)
    (anns : List (String × DockerAnalysisResult)) :
    KeysNodup (buildGraph elems anns) := by
  have hbase : ∀ (l : List CytoscapeElement) (st : NodeMap × List Edge),
      KeysNodup st → KeysNodup (l.foldl processElement st) := by
    intro l
    induction l with
    | nil => intro st h; exact h
    | cons el rest ih =>
      intro st h
      rw [List.foldl_cons]
      exact ih _ (processElement_nodup _ _ h)
  have hdocker : ∀ (l : List (String × DockerAnalysisResult))
      (st : NodeMap × List Edge), KeysNodup st →
      KeysNodup (l.foldl processDockerEntry st) := by
    intro l
    induction l with
    | nil => intro st h; exact h
    | cons p rest ih =>
      intro st h
      rw [List.foldl_cons]
      exact ih _ (processDockerEntry_nodup _ _ h)
  exact hdocker anns _ (hbase elems ([], []) ⟨List.nodup_nil, List.nodup_nil⟩)

/-- Counterexample to C2: two node descriptors with the same id — the output
node carries the attributes of the LAST descriptor (`Map.set` overwrites),
not the first. -/
theorem duplicate_node_last_write_wins_example :
    (alookup (buildGraph [CytoscapeElement.node "a" none (some "X") none,
        CytoscapeElement.node "a" none (some "Y") none] []).1 "a").map
      (·.data.label) = some "Y" ∧
    (some "Y" : Option String) ≠ some "X" := by
  decide

/-- C2 (amended: for duplicate *edge* descriptors the first occurrence wins
and later ones are ignored — Scenario C yields exactly one edge `a->b` — and
node and edge identifiers are unique in the output; but for duplicate *node*
descriptors the LAST occurrence wins: the single node per id carries the
attributes of the last descriptor, because `Map.set` overwrites). -/
theorem duplicate_identifier_policy (elems : List CytoscapeElement)
    (anns : List (String × DockerAnalysisResult)) (id eid : String) :
    alookup (buildGraph elems []).1 id =
      ((elems.filter (isNodeDescrFor id)).getLast?).map mkNodeOfDescr ∧
    findEdge (buildGraph elems []).2 eid =
      ((elems.filter (isEdgeDescrFor eid)).head?).map mkEdgeOfDescr ∧
    ((buildGraph elems anns).1.map (·.1)).Nodup ∧
    ((buildGraph elems anns).2.map (·.id)).Nodup ∧
    (buildGraph [CytoscapeElement.edge "a" "b" none,
        CytoscapeElement.edge "a" "b" none] []).2.map (·.id) = ["a->b"] := by
  refine ⟨buildBase_lookup_last elems id, ?_, (buildGraph_nodup elems anns).1,
    (buildGraph_nodup elems anns).2, by decide⟩
  show findEdge (buildBase elems).2 eid = _
  have h2 : (buildBase elems).2 = elems.foldl edgeStep [] :=
    buildBase_edges_eq elems ([], [])
  rw [h2, foldl_edgeStep_findEdge eid elems []]
  rfl

/-! ## C7: fallback names for malformed Docker API entries

The only trace a malformed entry leaves that differs from an entry carrying
the synthesized name explicitly is the raw `originalApi` debug payload stored
in `dockerInfo`; `nodeShape` erases that payload so the rest of the graph can
be compared exactly. -/

/-- Erase the `originalApi` debug payload. -/
def infoShape (d : DockerInfo) : DockerInfo := { d with originalApi := none }

/-- A node up to its `originalApi` debug payload. -/
def nodeShape (n : Node) : Node :=
  { n with data := { n.data with dockerInfo := n.data.dockerInfo.map infoShape } }

/-- A node-map entry up to the debug payload. -/
def shapePair (p : String × Node) : String × Node := (p.1, nodeShape p.2)

/-- A build state up to the debug payload. -/
def graphShape (st : NodeMap × List Edge) : NodeMap × List Edge :=
  (st.1.map shapePair, st.2)

theorem alookup_map_shapePair (m : NodeMap) (k : String) :
    alookup (m.map shapePair) k = (alookup m k).map nodeShape := by
  induction m with
  | nil => rfl
  | cons p rest ih =>
    by_cases hp : p.1 = k
    · simp [alookup, shapePair, hp]
    · simp [alookup, shapePair, hp, ih]

theorem isSome_of_map_shape_eq {o1 o2 : Option Node}
    (h : o1.map nodeShape = o2.map nodeShape) : o1.isSome = o2.isSome := by
  cases o1 <;> cases o2 <;> simp_all

theorem map_shape_mapReplace (m : NodeMap) (k : String) (v : Node) :
    (m.map (fun p => if p.1 = k then (k, v) else p)).map shapePair =
      (m.map shapePair).map (fun q => if q.1 = k then (k, nodeShape v) else q) := by
  induction m with
  | nil => rfl
  | cons p rest ih =>
    by_cases hp : p.1 = k
    · simp [shapePair, hp, ih]
    · simp [shapePair, hp, ih]

theorem mapSet_shape_cong (m1 m2 : NodeMap) (k : String) (v1 v2 : Node)
    (hm : m1.map shapePair = m2.map shapePair)
    (hv : nodeShape v1 = nodeShape v2) :
    (mapSet m1 k v1).map shapePair = (mapSet m2 k v2).map shapePair := by
  have hlk : (alookup m1 k).isSome = (alookup m2 k).isSome := by
    apply isSome_of_map_shape_eq
    rw [← alookup_map_shapePair, ← alookup_map_shapePair, hm]
  unfold mapSet
  by_cases h1 : (alookup m1 k).isSome = true
  · rw [if_pos h1, if_pos (hlk ▸ h1)]
    rw [map_shape_mapReplace, map_shape_mapReplace, hm, hv]
  · rw [if_neg h1, if_neg (fun hc => h1 (hlk.symm ▸ hc))]
    rw [List.map_append, List.map_append, hm]
    show _ ++ [(k, nodeShape v1)] = _ ++ [(k, nodeShape v2)]
    rw [hv]

theorem stepApi_shape_cong (f : String) (st1 st2 : NodeMap × List Edge)
    (i : Nat) (api1 api2 : DockerAPI)
    (h : graphShape st1 = graphShape st2)
    (hid : (capApiNode f i api1).id = (capApiNode f i api2).id)
    (hshape : nodeShape (capApiNode f i api1) = nodeShape (capApiNode f i api2)) :
    graphShape (stepApi f st1 (i, api1)) = graphShape (stepApi f st2 (i, api2)) := by
  have hm0 : (graphShape st1).1 = (graphShape st2).1 := congrArg Prod.fst h
  have he0 : (graphShape st1).2 = (graphShape st2).2 := congrArg Prod.snd h
  have hm : st1.1.map shapePair = st2.1.map shapePair := hm0
  have he : st1.2 = st2.2 := he0
  unfold stepApi graphShape
  simp only [Prod.mk.injEq]
  constructor
  · rw [hid]
    exact mapSet_shape_cong st1.1 st2.1 _ _ _ hm hshape
  · rw [he, hid]

theorem stepTool_shape_cong (f : String) (st1 st2 : NodeMap × List Edge)
    (i : Nat) (tool : String)
    (h : graphShape st1 = graphShape st2) :
    graphShape (stepTool f st1 (i, tool)) = graphShape (stepTool f st2 (i, tool)) := by
  have hm0 : (graphShape st1).1 = (graphShape st2).1 := congrArg Prod.fst h
  have he0 : (graphShape st1).2 = (graphShape st2).2 := congrArg Prod.snd h
  have hm : st1.1.map shapePair = st2.1.map shapePair := hm0
  have he : st1.2 = st2.2 := he0
  unfold stepTool graphShape
  simp only [Prod.mk.injEq]
  exact ⟨mapSet_shape_cong st1.1 st2.1 _ _ _ hm rfl, by rw [he]⟩

theorem foldIdx_stepApi_cong (f : String) (l : List DockerAPI) :
    ∀ (i : Nat) (st1 st2 : NodeMap × List Edge),
      graphShape st1 = graphShape st2 →
      graphShape (foldIdx (stepApi f) st1 i l) =
        graphShape (foldIdx (stepApi f) st2 i l) := by
  induction l with
  | nil => intro i st1 st2 h; exact h
  | cons b bs ih =>
    intro i st1 st2 h
    exact ih _ _ _ (stepApi_shape_cong f st1 st2 i b b h rfl rfl)

theorem foldIdx_stepTool_cong (f : String) (l : List String) :
    ∀ (i : Nat) (st1 st2 : NodeMap × List Edge),
      graphShape st1 = graphShape st2 →
      graphShape (foldIdx (stepTool f) st1 i l) =
        graphShape (foldIdx (stepTool f) st2 i l) := by
  induction l with
  | nil => intro i st1 st2 h; exact h
  | cons b bs ih =>
    intro i st1 st2 h
    exact ih _ _ _ (stepTool_shape_cong f st1 st2 i b h)

theorem processDockerEntry_shape_cong (st1 st2 : NodeMap × List Edge)
    (p : String × DockerAnalysisResult)
    (h : graphShape st1 = graphShape st2) :
    graphShape (processDockerEntry st1 p) = graphShape (processDockerEntry st2 p) := by
  unfold processDockerEntry
  by_cases hflag : p.2.hasDockerIntegration = true
  · rw [if_pos hflag, if_pos hflag]
    exact foldIdx_stepTool_cong _ _ _ _ _ (foldIdx_stepApi_cong _ _ _ _ _ h)
  · rw [if_neg hflag, if_neg hflag]
    exact h

theorem foldl_entries_shape_cong (l : List (String × DockerAnalysisResult)) :
    ∀ (st1 st2 : NodeMap × List Edge), graphShape st1 = graphShape st2 →
      graphShape (l.foldl processDockerEntry st1) =
        graphShape (l.foldl processDockerEntry st2) := by
  induction l with
  | nil => intro st1 st2 h; exact h
  | cons p rest ih =>
    intro st1 st2 h
    rw [List.foldl_cons, List.foldl_cons]
    exact ih _ _ (processDockerEntry_shape_cong _ _ _ h)

theorem foldIdx_append {α β : Type} (f : α → Nat × β → α) (xs ys : List β) :
    ∀ (a : α) (i : Nat),
      foldIdx f a i (xs ++ ys) = foldIdx f (foldIdx f a i xs) (i + xs.length) ys := by
  induction xs with
  | nil => intro a i; simp [foldIdx]
  | cons x xs ih =>
    intro a i
    show foldIdx f (f a (i, x)) (i + 1) (xs ++ ys) = _
    rw [ih]
    have : i + 1 + xs.length = i + (x :: xs).length := by
      simp [List.length_cons]
      omega
    rw [this]
    rfl

theorem append_ne_empty_left (s t : String) (h : s.data ≠ []) : s ++ t ≠ "" := by
  intro hc
  have hd : s.data ++ t.data = ([] : List Char) := congrArg String.data hc
  rcases List.append_eq_nil.mp hd with ⟨h1, _⟩
  exact h h1

theorem apiNameOf_patch (api : DockerAPI) (i : Nat)
    (hname : api.name = none) (htype : api.apiType = none) :
    apiNameOf api i = "api_" ++ Nat.repr i ∧
    apiNameOf { api with name := some ("api_" ++ Nat.repr i) } i =
      "api_" ++ Nat.repr i := by
  have hno : ("api_" ++ Nat.repr i) ≠ "" :=
    append_ne_empty_left "api_" (Nat.repr i) (by decide)
  constructor
  · unfold apiNameOf
    rw [hname, htype]
  · unfold apiNameOf
    simp [hno]

theorem capApiNode_patch (f : String) (i : Nat) (api : DockerAPI)
    (hname : api.name = none) (htype : api.apiType = none) :
    (capApiNode f i { api with name := some ("api_" ++ Nat.repr i) }).id =
      (capApiNode f i api).id ∧
    nodeShape (capApiNode f i { api with name := some ("api_" ++ Nat.repr i) }) =
      nodeShape (capApiNode f i api) := by
  obtain ⟨h1, h2⟩ := apiNameOf_patch api i hname htype
  unfold capApiNode nodeShape infoShape
  rw [h1, h2]
  exact ⟨rfl, rfl⟩

/-- C7: a Docker API entry at ordinal index `i` missing both `name` and
`apiType` never fails the build: the capability node gets the synthesized
fallback name `"api_" + i`, and the rest of the graph is exactly the graph
that an entry carrying that name explicitly would produce (the only
difference is the raw `originalApi` debug payload stored inside the node's
`dockerInfo`, erased by `nodeShape`); `buildGraph` is a total function, so
the build always completes. -/
theorem docker_api_fallback_name (elems : List CytoscapeElement)
    (pre post : List (String × DockerAnalysisResult)) (k : String)
    (a : DockerAnalysisResult) (apre apost : List DockerAPI) (api : DockerAPI)
    (hsplit : a.dockerApis = apre ++ api :: apost)
    (hname : api.name = none) (htype : api.apiType = none) :
    apiNameOf api apre.length = "api_" ++ Nat.repr apre.length ∧
    (capApiNode (stripGithub k) apre.length api).id =
      "docker_api_" ++ stripGithub k ++ "_" ++ ("api_" ++ Nat.repr apre.length)
        ++ "_" ++ Nat.repr apre.length ∧
    graphShape (buildGraph elems (pre ++
        (k, { a with dockerApis :=
          apre ++ { api with name := some ("api_" ++ Nat.repr apre.length) } :: apost }) :: post)) =
      graphShape (buildGraph elems (pre ++ (k, a) :: post)) := by
  obtain ⟨hn1, _⟩ := apiNameOf_patch api apre.length hname htype
  obtain ⟨hid, hshape⟩ := capApiNode_patch (stripGithub k) apre.length api hname htype
  refine ⟨hn1, ?_, ?_⟩
  · show "docker_api_" ++ stripGithub k ++ "_" ++ apiNameOf api apre.length
        ++ "_" ++ Nat.repr apre.length = _
    rw [hn1]
  · unfold buildGraph
    rw [List.foldl_append, List.foldl_append, List.foldl_cons, List.foldl_cons]
    apply foldl_entries_shape_cong
    generalize (List.foldl processDockerEntry (buildBase elems) pre) = st0
    have hflagEq : ({ a with dockerApis := apre ++
        { api with name := some ("api_" ++ Nat.repr apre.length) } :: apost } :
        DockerAnalysisResult).hasDockerIntegration = a.hasDockerIntegration := rfl
    have htoolsEq : ({ a with dockerApis := apre ++
        { api with name := some ("api_" ++ Nat.repr apre.length) } :: apost } :
        DockerAnalysisResult).dockerTools = a.dockerTools := rfl
    unfold processDockerEntry
    simp only [hflagEq, htoolsEq]
    by_cases hflag : a.hasDockerIntegration = true
    · rw [if_pos hflag, if_pos hflag]
      apply foldIdx_stepTool_cong
      show graphShape (foldIdx _ st0 0 (apre ++
          { api with name := some ("api_" ++ Nat.repr apre.length) } :: apost)) = _
      rw [hsplit]
      rw [foldIdx_append, foldIdx_append]
      simp only [Nat.zero_add]
      show graphShape (foldIdx _
          (stepApi (stripGithub k) _ (apre.length,
            { api with name := some ("api_" ++ Nat.repr apre.length) }))
          (apre.length + 1) apost) = _
      apply foldIdx_stepApi_cong
      exact stepApi_shape_cong (stripGithub k) _ _ apre.length _ api rfl hid hshape
    · rw [if_neg hflag, if_neg hflag]

/-- The concrete malformed Docker API entry used by the witness below. -/
def apiMissing : DockerAPI :=
  { name := none, apiType := none, description := "x", line := none, codeSnippet := none }

/-- The same entry with the synthesized fallback name made explicit. -/
def apiPatched : DockerAPI :=
  { name := some ("api_" ++ Nat.repr 0), apiType := none, description := "x", line := none, codeSnippet := none }

/-- One-entry annotation map around `apiMissing`. -/
def annMissing : DockerAnalysisResult :=
  { hasDockerIntegration := true, dockerTools := [], dockerApis := [apiMissing], summary := "s" }

/-- One-entry annotation map around `apiPatched`. -/
def annPatched : DockerAnalysisResult :=
  { hasDockerIntegration := true, dockerTools := [], dockerApis := [apiPatched], summary := "s" }

/-- Witness for `docker_api_fallback_name` at a concrete one-entry annotation
map whose single Docker API entry is missing both `name` and `apiType`. -/
theorem docker_api_fallback_name_inst :
    apiNameOf apiMissing 0 = "api_" ++ Nat.repr 0 ∧
    (capApiNode (stripGithub "github:a.ts") 0 apiMissing).id =
      "docker_api_" ++ stripGithub "github:a.ts" ++ "_" ++ ("api_" ++ Nat.repr 0)
        ++ "_" ++ Nat.repr 0 ∧
    graphShape (buildGraph [] [("github:a.ts", annPatched)]) =
      graphShape (buildGraph [] [("github:a.ts", annMissing)]) :=
  docker_api_fallback_name [] [] [] "github:a.ts" annMissing [] [] apiMissing
    rfl rfl rfl

/-! ## C4: capability completeness -/

/-- Indexed map, the pure counterpart of the `forEach((x, index) => ...)`
loops. -/
def mapIdx {β γ : Type} (f : Nat → β → γ) : Nat → List β → List γ
  | _, [] => []
  | i, b :: bs => f i b :: mapIdx f (i + 1) bs

/-- The node-map entry registered for `dockerApis[i]`. -/
def apiPairAt (f : String) (i : Nat) (api : DockerAPI) : String × Node :=
  ((capApiNode f i api).id, capApiNode f i api)

/-- The node-map entry registered for `dockerTools[i]`. -/
def toolPairAt (f : String) (i : Nat) (t : String) : String × Node :=
  ((capToolNode f i t).id, capToolNode f i t)

/-- The capability edge pushed for `dockerApis[i]`. -/
def apiEdgeAt (f : String) (i : Nat) (api : DockerAPI) : Edge :=
  capApiEdge f (capApiNode f i api).id

/-- The capability edge pushed for `dockerTools[i]`. -/
def toolEdgeAt (f : String) (i : Nat) (t : String) : Edge :=
  capToolEdge f (capToolNode f i t).id

/-- All node-map entries one flag-true annotation entry synthesizes. -/
def entryCapPairs (f : String) (a : DockerAnalysisResult) : List (String × Node) :=
  mapIdx (apiPairAt f) 0 a.dockerApis ++ mapIdx (toolPairAt f) 0 a.dockerTools

/-- All capability edges one flag-true annotation entry synthesizes. -/
def entryCapEdges (f : String) (a : DockerAnalysisResult) : List Edge :=
  mapIdx (apiEdgeAt f) 0 a.dockerApis ++ mapIdx (toolEdgeAt f) 0 a.dockerTools

/-- All node-map entries the Docker augmentation synthesizes, in order. -/
def capPairsAll : List (String × DockerAnalysisResult) → List (String × Node)
  | [] => []
  | p :: rest =>
    (if p.2.hasDockerIntegration then entryCapPairs (stripGithub p.1) p.2 else [])
      ++ capPairsAll rest

/-- All capability edges the Docker augmentation synthesizes, in order. -/
def capEdgesAll : List (String × DockerAnalysisResult) → List Edge
  | [] => []
  | p :: rest =>
    (if p.2.hasDockerIntegration then entryCapEdges (stripGithub p.1) p.2 else [])
      ++ capEdgesAll rest

theorem alookup_append_none {β : Type} (m l : List (String × β)) (k : String)
    (h1 : alookup m k = none) (h2 : alookup l k = none) :
    alookup (m ++ l) k = none := by
  rw [alookup_append_right m l k h1]
  exact h2

/-- Registering a block of fresh Docker API entries appends their node-map
pairs and capability edges. -/
theorem foldIdx_stepApi_append (f : String) (l : List DockerAPI) :
    ∀ (i : Nat) (st : NodeMap × List Edge),
    (∀ x ∈ (mapIdx (apiPairAt f) i l).map (·.1), alookup st.1 x = none) →
    ((mapIdx (apiPairAt f) i l).map (·.1)).Nodup →
    (∀ x ∈ (mapIdx (apiEdgeAt f) i l).map (·.id), x ∉ st.2.map (·.id)) →
    ((mapIdx (apiEdgeAt f) i l).map (·.id)).Nodup →
    foldIdx (stepApi f) st i l =
      (st.1 ++ mapIdx (apiPairAt f) i l, st.2 ++ mapIdx (apiEdgeAt f) i l) := by
  induction l with
  | nil =>
    intro i st _ _ _ _
    show st = (st.1 ++ [], st.2 ++ [])
    simp
  | cons api rest ih =>
    intro i st hA hN hE hEN
    have hid0 : alookup st.1 (apiPairAt f i api).1 = none := by
      apply hA
      simp [mapIdx]
    have heid0 : (apiEdgeAt f i api).id ∉ st.2.map (·.id) := by
      apply hE
      simp [mapIdx]
    have hid0' : alookup st.1 (capApiNode f i api).id = none := hid0
    have heid0' : (capApiEdge f (capApiNode f i api).id).id ∉ st.2.map (·.id) := heid0
    have hstep : stepApi f st (i, api) =
        (st.1 ++ [apiPairAt f i api], st.2 ++ [apiEdgeAt f i api]) := by
      show (mapSet st.1 (capApiNode f i api).id (capApiNode f i api),
        pushEdge st.2 (capApiEdge f (capApiNode f i api).id)) = _
      rw [mapSet_of_absent _ _ _ hid0', pushEdge_of_fresh _ _ heid0']
      rfl
    show foldIdx (stepApi f) (stepApi f st (i, api)) (i + 1) rest = _
    rw [hstep]
    simp only [mapIdx, List.map_cons] at hA hN hE hEN
    rcases List.nodup_cons.mp hN with ⟨hN0, hNrest⟩
    rcases List.nodup_cons.mp hEN with ⟨hEN0, hENrest⟩
    rw [ih (i + 1) _ ?_ hNrest ?_ hENrest]
    · simp [mapIdx]
    · intro x hx
      apply alookup_append_none
      · exact hA x (List.mem_cons_of_mem _ hx)
      · show alookup [apiPairAt f i api] x = none
        have hne : (apiPairAt f i api).1 ≠ x := fun hc => hN0 (hc ▸ hx)
        simp [alookup, hne]
    · intro x hx
      rw [List.map_append]
      intro hc
      rcases List.mem_append.mp hc with hc | hc
      · exact hE x (List.mem_cons_of_mem _ hx) hc
      · have : x = (apiEdgeAt f i api).id := by simpa using hc
        exact hEN0 (this ▸ hx)

/-- Registering a block of fresh Docker tool entries appends their node-map
pairs and capability edges. -/
theorem foldIdx_stepTool_append (f : String) (l : List String) :
    ∀ (i : Nat) (st : NodeMap × List Edge),
    (∀ x ∈ (mapIdx (toolPairAt f) i l).map (·.1), alookup st.1 x = none) →
    ((mapIdx (toolPairAt f) i l).map (·.1)).Nodup →
    (∀ x ∈ (mapIdx (toolEdgeAt f) i l).map (·.id), x ∉ st.2.map (·.id)) →
    ((mapIdx (toolEdgeAt f) i l).map (·.id)).Nodup →
    foldIdx (stepTool f) st i l =
      (st.1 ++ mapIdx (toolPairAt f) i l, st.2 ++ mapIdx (toolEdgeAt f) i l) := by
  induction l with
  | nil =>
    intro i st _ _ _ _
    show st = (st.1 ++ [], st.2 ++ [])
    simp
  | cons tool rest ih =>
    intro i st hA hN hE hEN
    have hid0 : alookup st.1 (toolPairAt f i tool).1 = none := by
      apply hA
      simp [mapIdx]
    have heid0 : (toolEdgeAt f i tool).id ∉ st.2.map (·.id) := by
      apply hE
      simp [mapIdx]
    have hid0' : alookup st.1 (capToolNode f i tool).id = none := hid0
    have heid0' : (capToolEdge f (capToolNode f i tool).id).id ∉ st.2.map (·.id) := heid0
    have hstep : stepTool f st (i, tool) =
        (st.1 ++ [toolPairAt f i tool], st.2 ++ [toolEdgeAt f i tool]) := by
      show (mapSet st.1 (capToolNode f i tool).id (capToolNode f i tool),
        pushEdge st.2 (capToolEdge f (capToolNode f i tool).id)) = _
      rw [mapSet_of_absent _ _ _ hid0', pushEdge_of_fresh _ _ heid0']
      rfl
    show foldIdx (stepTool f) (stepTool f st (i, tool)) (i + 1) rest = _
    rw [hstep]
    simp only [mapIdx, List.map_cons] at hA hN hE hEN
    rcases List.nodup_cons.mp hN with ⟨hN0, hNrest⟩
    rcases List.nodup_cons.mp hEN with ⟨hEN0, hENrest⟩
    rw [ih (i + 1) _ ?_ hNrest ?_ hENrest]
    · simp [mapIdx]
    · intro x hx
      apply alookup_append_none
      · exact hA x (List.mem_cons_of_mem _ hx)
      · show alookup [toolPairAt f i tool] x = none
        have hne : (toolPairAt f i tool).1 ≠ x := fun hc => hN0 (hc ▸ hx)
        simp [alookup, hne]
    · intro x hx
      rw [List.map_append]
      intro hc
      rcases List.mem_append.mp hc with hc | hc
      · exact hE x (List.mem_cons_of_mem _ hx) hc
      · have : x = (toolEdgeAt f i tool).id := by simpa using hc
        exact hEN0 (this ▸ hx)

/-- Processing one flag-true annotation entry with globally fresh synthesized
identifiers appends exactly its capability pairs and edges. -/
theorem processDockerEntry_append (st : NodeMap × List Edge) (k : String)
    (a : DockerAnalysisResult) (hflag : a.hasDockerIntegration = true)
    (hA : ∀ x ∈ (entryCapPairs (stripGithub k) a).map (·.1), alookup st.1 x = none)
    (hN : ((entryCapPairs (stripGithub k) a).map (·.1)).Nodup)
    (hE : ∀ x ∈ (entryCapEdges (stripGithub k) a).map (·.id), x ∉ st.2.map (·.id))
    (hEN : ((entryCapEdges (stripGithub k) a).map (·.id)).Nodup) :
    processDockerEntry st (k, a) =
      (st.1 ++ entryCapPairs (stripGithub k) a,
       st.2 ++ entryCapEdges (stripGithub k) a) := by
  unfold entryCapPairs at hA hN
  unfold entryCapEdges at hE hEN
  rw [List.map_append] at hA hN
  rw [List.map_append] at hE hEN
  rcases List.nodup_append.mp hN with ⟨hNapi, hNtool, hNdisj⟩
  rcases List.nodup_append.mp hEN with ⟨hENapi, hENtool, hENdisj⟩
  have hAapi : ∀ x ∈ (mapIdx (apiPairAt (stripGithub k)) 0 a.dockerApis).map (·.1),
      alookup st.1 x = none :=
    fun x hx => hA x (List.mem_append.mpr (Or.inl hx))
  have hAtool : ∀ x ∈ (mapIdx (toolPairAt (stripGithub k)) 0 a.dockerTools).map (·.1),
      alookup st.1 x = none :=
    fun x hx => hA x (List.mem_append.mpr (Or.inr hx))
  have hEapi : ∀ x ∈ (mapIdx (apiEdgeAt (stripGithub k)) 0 a.dockerApis).map (·.id),
      x ∉ st.2.map (·.id) :=
    fun x hx => hE x (List.mem_append.mpr (Or.inl hx))
  have hEtool : ∀ x ∈ (mapIdx (toolEdgeAt (stripGithub k)) 0 a.dockerTools).map (·.id),
      x ∉ st.2.map (·.id) :=
    fun x hx => hE x (List.mem_append.mpr (Or.inr hx))
  show (if (k, a).2.hasDockerIntegration then _ else st) = _
  rw [if_pos (show (k, a).2.hasDockerIntegration = true from hflag)]
  show foldIdx (stepTool (stripGithub k))
      (foldIdx (stepApi (stripGithub k)) st 0 a.dockerApis) 0 a.dockerTools = _
  rw [foldIdx_stepApi_append (stripGithub k) a.dockerApis 0 st hAapi hNapi hEapi hENapi]
  rw [foldIdx_stepTool_append (stripGithub k) a.dockerTools 0 _ ?_ hNtool ?_ hENtool]
  · show (st.1 ++ _ ++ _, st.2 ++ _ ++ _) = _
    rw [List.append_assoc, List.append_assoc]
    rfl
  · intro x hx
    apply alookup_append_none
    · exact hAtool x hx
    · exact (alookup_eq_none_iff _ _).mpr (fun hc => hNdisj hc hx)
  · intro x hx
    rw [List.map_append]
    intro hc
    rcases List.mem_append.mp hc with hc | hc
    · exact hEtool x hx hc
    · exact hENdisj hc hx

/-- The Docker augmentation with globally fresh synthesized identifiers
appends exactly the capability pairs and edges of the flag-true entries. -/
theorem dockerFold_append (anns : List (String × DockerAnalysisResult)) :
    ∀ (st : NodeMap × List Edge),
    (∀ x ∈ (capPairsAll anns).map (·.1), alookup st.1 x = none) →
    ((capPairsAll anns).map (·.1)).Nodup →
    (∀ x ∈ (capEdgesAll anns).map (·.id), x ∉ st.2.map (·.id)) →
    ((capEdgesAll anns).map (·.id)).Nodup →
    anns.foldl processDockerEntry st =
      (st.1 ++ capPairsAll anns, st.2 ++ capEdgesAll anns) := by
  induction anns with
  | nil =>
    intro st _ _ _ _
    show st = _
    simp [capPairsAll, capEdgesAll]
  | cons p rest ih =>
    rcases p with ⟨k, a⟩
    intro st hA hN hE hEN
    rw [List.foldl_cons]
    by_cases hflag : a.hasDockerIntegration = true
    · have hcp : capPairsAll ((k, a) :: rest) =
          entryCapPairs (stripGithub k) a ++ capPairsAll rest := by
        simp [capPairsAll, hflag]
      have hce : capEdgesAll ((k, a) :: rest) =
          entryCapEdges (stripGithub k) a ++ capEdgesAll rest := by
        simp [capEdgesAll, hflag]
      rw [hcp] at hA hN
      rw [hce] at hE hEN
      rw [List.map_append] at hA hN hE hEN
      rcases List.nodup_append.mp hN with ⟨hN1, hN2, hNdisj⟩
      rcases List.nodup_append.mp hEN with ⟨hEN1, hEN2, hENdisj⟩
      rw [processDockerEntry_append st k a hflag
        (fun x hx => hA x (List.mem_append.mpr (Or.inl hx))) hN1
        (fun x hx => hE x (List.mem_append.mpr (Or.inl hx))) hEN1]
      rw [ih _ ?_ hN2 ?_ hEN2]
      · rw [hcp, hce]
        show (st.1 ++ _ ++ _, st.2 ++ _ ++ _) = _
        rw [List.append_assoc, List.append_assoc]
      · intro x hx
        apply alookup_append_none
        · exact hA x (List.mem_append.mpr (Or.inr hx))
        · exact (alookup_eq_none_iff _ _).mpr (fun hc => hNdisj hc hx)
      · intro x hx
        rw [List.map_append]
        intro hc
        rcases List.mem_append.mp hc with hc | hc
        · exact hE x (List.mem_append.mpr (Or.inr hx)) hc
        · exact hENdisj hc hx
    · have hcp : capPairsAll ((k, a) :: rest) = capPairsAll rest := by
        simp [capPairsAll, hflag]
      have hce : capEdgesAll ((k, a) :: rest) = capEdgesAll rest := by
        simp [capEdgesAll, hflag]
      rw [hcp] at hA hN
      rw [hce] at hE hEN
      have hskip : processDockerEntry st (k, a) = st := by
        unfold processDockerEntry
        rw [if_neg (show ¬(k, a).2.hasDockerIntegration = true from hflag)]
      rw [hskip, ih st hA hN hE hEN, hcp, hce]

/-! ### Counting the synthesized capability nodes and edges -/

/-- Is this node a Docker capability node owned by file `f`? -/
def isCapNodeFor (f : String) (n : Node) : Bool :=
  decide ((n.data.fileType = "docker_api" ∨ n.data.fileType = "docker_tool") ∧
    n.data.sourceFile = some f)

/-- Is this edge a capability edge from file `f`? -/
def isCapEdgeFor (f : String) (e : Edge) : Bool :=
  decide ((e.dataType = some "docker_api_usage" ∨
    e.dataType = some "docker_tool_usage") ∧ e.source = f)

theorem isCapNodeFor_capApiNode (f f' : String) (i : Nat) (api : DockerAPI) :
    isCapNodeFor f (capApiNode f' i api) = decide (f' = f) := by
  by_cases h : f' = f
  · simp [isCapNodeFor, capApiNode, h]
  · simp [isCapNodeFor, capApiNode, h]

theorem isCapNodeFor_capToolNode (f f' : String) (i : Nat) (t : String) :
    isCapNodeFor f (capToolNode f' i t) = decide (f' = f) := by
  by_cases h : f' = f
  · simp [isCapNodeFor, capToolNode, h]
  · simp [isCapNodeFor, capToolNode, h]

theorem isCapEdgeFor_apiEdgeAt (f f' : String) (i : Nat) (api : DockerAPI) :
    isCapEdgeFor f (apiEdgeAt f' i api) = decide (f' = f) := by
  by_cases h : f' = f
  · simp [isCapEdgeFor, apiEdgeAt, capApiEdge, h]
  · simp [isCapEdgeFor, apiEdgeAt, capApiEdge, h]

theorem isCapEdgeFor_toolEdgeAt (f f' : String) (i : Nat) (t : String) :
    isCapEdgeFor f (toolEdgeAt f' i t) = decide (f' = f) := by
  by_cases h : f' = f
  · simp [isCapEdgeFor, toolEdgeAt, capToolEdge, h]
  · simp [isCapEdgeFor, toolEdgeAt, capToolEdge, h]

theorem countP_mapIdx_const {β γ : Type} (p : γ → Bool) (g : Nat → β → γ)
    (c : Bool) (h : ∀ i b, p (g i b) = c) :
    ∀ (i : Nat) (l : List β), (mapIdx g i l).countP p = if c then l.length else 0 := by
  intro i l
  induction l generalizing i with
  | nil => cases c <;> simp [mapIdx]
  | cons b bs ih =>
    show (g i b :: mapIdx g (i + 1) bs).countP p = _
    rw [List.countP_cons, ih (i + 1), h i b]
    cases c <;> simp

/-- The per-entry node count: an entry owned by `f'` contributes its full
entry count to file `f` exactly when `f' = f`, and nothing otherwise. -/
theorem countNode_entry (f f' : String) (a : DockerAnalysisResult) :
    (entryCapPairs f' a).countP (fun pr => isCapNodeFor f pr.2) =
      if f' = f then a.dockerApis.length + a.dockerTools.length else 0 := by
  unfold entryCapPairs
  rw [List.countP_append]
  rw [countP_mapIdx_const _ (apiPairAt f') (decide (f' = f))
    (fun i b => isCapNodeFor_capApiNode f f' i b)]
  rw [countP_mapIdx_const _ (toolPairAt f') (decide (f' = f))
    (fun i b => isCapNodeFor_capToolNode f f' i b)]
  by_cases h : f' = f <;> simp [h]

/-- The per-entry edge count. -/
theorem countEdge_entry (f f' : String) (a : DockerAnalysisResult) :
    (entryCapEdges f' a).countP (isCapEdgeFor f) =
      if f' = f then a.dockerApis.length + a.dockerTools.length else 0 := by
  unfold entryCapEdges
  rw [List.countP_append]
  rw [countP_mapIdx_const _ (apiEdgeAt f') (decide (f' = f))
    (fun i b => isCapEdgeFor_apiEdgeAt f f' i b)]
  rw [countP_mapIdx_const _ (toolEdgeAt f') (decide (f' = f))
    (fun i b => isCapEdgeFor_toolEdgeAt f f' i b)]
  by_cases h : f' = f <;> simp [h]

/-- The stripped paths of the flag-true annotation entries, in order. -/
def flaggedStrips : List (String × DockerAnalysisResult) → List String
  | [] => []
  | p :: rest =>
    (if p.2.hasDockerIntegration then [stripGithub p.1] else []) ++ flaggedStrips rest

theorem strip_mem_flaggedStrips (anns : List (String × DockerAnalysisResult))
    (k : String) (a : DockerAnalysisResult) (hmem : (k, a) ∈ anns)
    (hflag : a.hasDockerIntegration = true) :
    stripGithub k ∈ flaggedStrips anns := by
  induction anns with
  | nil => simp at hmem
  | cons p rest ih =>
    show stripGithub k ∈ (if p.2.hasDockerIntegration then [stripGithub p.1] else [])
      ++ flaggedStrips rest
    rcases List.mem_cons.mp hmem with heq | hmem'
    · rw [← heq]
      simp [hflag]
    · exact List.mem_append.mpr (Or.inr (ih hmem'))

/-- Generic concatenation of per-entry synthesized artifacts over the
annotation entries (the common shape of `capPairsAll` and `capEdgesAll`). -/
def capConcat {γ : Type} (entry : String → DockerAnalysisResult → List γ) :
    List (String × DockerAnalysisResult) → List γ
  | [] => []
  | p :: rest =>
    (if p.2.hasDockerIntegration then entry (stripGithub p.1) p.2 else [])
      ++ capConcat entry rest

theorem capPairsAll_eq_capConcat (anns : List (String × DockerAnalysisResult)) :
    capPairsAll anns = capConcat entryCapPairs anns := by
  induction anns with
  | nil => rfl
  | cons p rest ih => simp [capPairsAll, capConcat, ih]

theorem capEdgesAll_eq_capConcat (anns : List (String × DockerAnalysisResult)) :
    capEdgesAll anns = capConcat entryCapEdges anns := by
  induction anns with
  | nil => rfl
  | cons p rest ih => simp [capEdgesAll, capConcat, ih]

theorem countP_capConcat_zero {γ : Type}
    (entry : String → DockerAnalysisResult → List γ) (p : γ → Bool)
    (anns : List (String × DockerAnalysisResult))
    (hzero : ∀ q ∈ anns, q.2.hasDockerIntegration = true →
      (entry (stripGithub q.1) q.2).countP p = 0) :
    (capConcat entry anns).countP p = 0 := by
  induction anns with
  | nil => rfl
  | cons q rest ih =>
    show ((if q.2.hasDockerIntegration then entry (stripGithub q.1) q.2 else [])
      ++ capConcat entry rest).countP p = 0
    rw [List.countP_append]
    by_cases hflag : q.2.hasDockerIntegration = true
    · rw [if_pos hflag, hzero q (List.mem_cons_self q rest) hflag,
        ih (fun r hr h => hzero r (List.mem_cons_of_mem q hr) h)]
    · rw [if_neg hflag, ih (fun r hr h => hzero r (List.mem_cons_of_mem q hr) h)]
      rfl

theorem countP_capConcat {γ : Type}
    (entry : String → DockerAnalysisResult → List γ) (p : γ → Bool)
    (anns : List (String × DockerAnalysisResult)) (k : String)
    (a : DockerAnalysisResult) (N : Nat)
    (hmem : (k, a) ∈ anns) (hflag : a.hasDockerIntegration = true)
    (hnodup : (flaggedStrips anns).Nodup)
    (hself : (entry (stripGithub k) a).countP p = N)
    (hother : ∀ q ∈ anns, q.2.hasDockerIntegration = true →
      stripGithub q.1 ≠ stripGithub k → (entry (stripGithub q.1) q.2).countP p = 0) :
    (capConcat entry anns).countP p = N := by
  induction anns with
  | nil => simp at hmem
  | cons q rest ih =>
    show ((if q.2.hasDockerIntegration then entry (stripGithub q.1) q.2 else [])
      ++ capConcat entry rest).countP p = N
    rw [List.countP_append]
    by_cases hflag' : q.2.hasDockerIntegration = true
    · have hfs : flaggedStrips (q :: rest) =
          stripGithub q.1 :: flaggedStrips rest := by
        show (if q.2.hasDockerIntegration then [stripGithub q.1] else [])
          ++ flaggedStrips rest = _
        rw [if_pos hflag']
        rfl
      rw [hfs] at hnodup
      rcases List.nodup_cons.mp hnodup with ⟨hhead, hrest⟩
      rw [if_pos hflag']
      rcases List.mem_cons.mp hmem with heq | hmem'
      · have hq1 : q.1 = k := congrArg Prod.fst heq.symm
        have hq2 : q.2 = a := congrArg Prod.snd heq.symm
        have hz : (capConcat entry rest).countP p = 0 := by
          apply countP_capConcat_zero
          intro r hr hrflag
          by_cases hne : stripGithub r.1 = stripGithub k
          · exfalso
            apply hhead
            rw [hq1, ← hne]
            rcases r with ⟨rk, ra⟩
            exact strip_mem_flaggedStrips rest rk ra hr hrflag
          · exact hother r (List.mem_cons_of_mem q hr) hrflag hne
        rw [hq1, hq2, hself, hz]
        omega
      · have hne : stripGithub q.1 ≠ stripGithub k := by
          intro hc
          apply hhead
          rw [hc]
          exact strip_mem_flaggedStrips rest k a hmem' hflag
        rw [hother q (List.mem_cons_self q rest) hflag' hne]
        rw [ih hmem' hrest
          (fun r hr h hn => hother r (List.mem_cons_of_mem q hr) h hn)]
        omega
    · have hfs : flaggedStrips (q :: rest) = flaggedStrips rest := by
        show (if q.2.hasDockerIntegration then [stripGithub q.1] else [])
          ++ flaggedStrips rest = _
        rw [if_neg hflag']
        rfl
      rw [hfs] at hnodup
      have hmem' : (k, a) ∈ rest := by
        rcases List.mem_cons.mp hmem with heq | hmem'
        · exfalso
          apply hflag'
          rw [← heq]
          exact hflag
        · exact hmem'
      rw [if_neg hflag', ih hmem' hnodup
        (fun r hr h hn => hother r (List.mem_cons_of_mem q hr) h hn)]
      simp

theorem countP_map_snd (l : List (String × Node)) (p : Node → Bool) :
    (l.map (·.2)).countP p = l.countP (fun q => p q.2) := by
  induction l with
  | nil => rfl
  | cons q rest ih => rw [List.map_cons, List.countP_cons, List.countP_cons, ih]

/-- Annotation entry used by the counterexample: one API named `x`. -/
def annX : DockerAnalysisResult :=
  { hasDockerIntegration := true, dockerTools := [],
    dockerApis := [{ name := some "x", apiType := none, description := "d", line := none, codeSnippet := none }],
    summary := "s" }

/-- Annotation entry used by the counterexample: one API named `y`. -/
def annY : DockerAnalysisResult :=
  { hasDockerIntegration := true, dockerTools := [],
    dockerApis := [{ name := some "y", apiType := none, description := "d", line := none, codeSnippet := none }],
    summary := "s" }

/-- Counterexample to C4: the two distinct keys `github:a.ts` and `a.ts` both
strip to the file `a.ts`, so the output graph holds 2 capability nodes owned
by that file although the key `github:a.ts` has N = 1 total entries — the
per-key count is not exact for arbitrary annotation maps. -/
theorem capability_count_collision_example :
    ((buildGraph [] [("github:a.ts", annX), ("a.ts", annY)]).1.map (·.2)).countP
        (isCapNodeFor "a.ts") = 2 ∧
    annX.dockerApis.length + annX.dockerTools.length = 1 ∧
    stripGithub "github:a.ts" = "a.ts" ∧ stripGithub "a.ts" = "a.ts" := by
  decide

/-- C4 (amended: exactness additionally requires that no two flag-true keys
strip to the same path, that the synthesized capability node/edge identifiers
are pairwise distinct and absent from the phase-1 graph, and that the raw
elements carry no Docker-capability nodes or capability-usage edges for the
file — all of which hold for well-formed upstream data, per §3 "capability
nodes are never referenced by raw input"): then for a flag-true key with N
total API+tool entries the output graph contains exactly N capability nodes
owned by the stripped file and exactly N capability edges from it. -/
theorem capability_completeness (elems : List CytoscapeElement)
    (anns : List (String × DockerAnalysisResult)) (k : String)
    (a : DockerAnalysisResult)
    (hmem : (k, a) ∈ anns) (hflag : a.hasDockerIntegration = true)
    (hstrips : (flaggedStrips anns).Nodup)
    (hIds : ((capPairsAll anns).map (·.1)).Nodup)
    (hIdsFresh : ∀ x ∈ (capPairsAll anns).map (·.1),
      alookup (buildBase elems).1 x = none)
    (hEids : ((capEdgesAll anns).map (·.id)).Nodup)
    (hEidsFresh : ∀ x ∈ (capEdgesAll anns).map (·.id),
      x ∉ (buildBase elems).2.map (·.id))
    (hRawNodes : ∀ q ∈ (buildBase elems).1,
      isCapNodeFor (stripGithub k) q.2 = false)
    (hRawEdges : ∀ e ∈ (buildBase elems).2,
      isCapEdgeFor (stripGithub k) e = false) :
    ((buildGraph elems anns).1.map (·.2)).countP (isCapNodeFor (stripGithub k)) =
      a.dockerApis.length + a.dockerTools.length ∧
    ((buildGraph elems anns).2).countP (isCapEdgeFor (stripGithub k)) =
      a.dockerApis.length + a.dockerTools.length := by
  have hchar : buildGraph elems anns =
      ((buildBase elems).1 ++ capPairsAll anns,
       (buildBase elems).2 ++ capEdgesAll anns) := by
    unfold buildGraph
    exact dockerFold_append anns (buildBase elems) hIdsFresh hIds hEidsFresh hEids
  rw [hchar]
  constructor
  · show (((buildBase elems).1 ++ capPairsAll anns).map (·.2)).countP _ = _
    rw [countP_map_snd, List.countP_append]
    have h0 : ((buildBase elems).1).countP
        (fun q => isCapNodeFor (stripGithub k) q.2) = 0 := by
      rw [List.countP_eq_zero]
      intro q hq
      rw [hRawNodes q hq]
      simp
    rw [h0, capPairsAll_eq_capConcat]
    rw [countP_capConcat entryCapPairs _ anns k a
      (a.dockerApis.length + a.dockerTools.length) hmem hflag hstrips
      (by rw [countNode_entry]; simp)
      (fun q hq hqf hne => by rw [countNode_entry]; simp [hne])]
    omega
  · show ((buildBase elems).2 ++ capEdgesAll anns).countP _ = _
    rw [List.countP_append]
    have h0 : ((buildBase elems).2).countP (isCapEdgeFor (stripGithub k)) = 0 := by
      rw [List.countP_eq_zero]
      intro e he
      rw [hRawEdges e he]
      simp
    rw [h0, capEdgesAll_eq_capConcat]
    rw [countP_capConcat entryCapEdges _ anns k a
      (a.dockerApis.length + a.dockerTools.length) hmem hflag hstrips
      (by rw [countEdge_entry]; simp)
      (fun q hq hqf hne => by rw [countEdge_entry]; simp [hne])]
    omega

/-- The Scenario B annotation entry: one API of type `read`, one tool. -/
def annScenB : DockerAnalysisResult :=
  { hasDockerIntegration := true, dockerTools := ["compose"],
    dockerApis := [{ name := none, apiType := some "read", description := "x", line := none, codeSnippet := none }],
    summary := "s" }

/-- Witness for `capability_completeness` at Scenario B: one file node, one
flag-true key with 2 entries, giving exactly 2 capability nodes and 2
capability edges. -/
theorem capability_completeness_inst :
    ((buildGraph [CytoscapeElement.node "a.ts" none none none]
        [("github:a.ts", annScenB)]).1.map (·.2)).countP
      (isCapNodeFor (stripGithub "github:a.ts")) =
        annScenB.dockerApis.length + annScenB.dockerTools.length ∧
    ((buildGraph [CytoscapeElement.node "a.ts" none none none]
        [("github:a.ts", annScenB)]).2).countP
      (isCapEdgeFor (stripGithub "github:a.ts")) =
        annScenB.dockerApis.length + annScenB.dockerTools.length :=
  capability_completeness [CytoscapeElement.node "a.ts" none none none]
    [("github:a.ts", annScenB)] "github:a.ts" annScenB
    (by decide) rfl (by decide) (by decide) (by decide) (by decide) (by decide)
    (by decide) (by decide)

end DepGraph
